import Mathlib

/-!
# MODS dma-buf physical address lookup

A shallow embedding of `esc_mods_dmabuf_get_phys_addr`
(`drivers/misc/mods/mods_dmabuf.c`) and theorems about it.

Machine integers are natural numbers with the wrap-around written out:
`u64` additions are taken modulo `2 ^ 64`, `unsigned int` additions modulo
`2 ^ 32`.  `phys_addr_t` is 64 bits wide, as on the 64-bit Tegra targets of the
driver.  The scatter list of the mapped buffer is a list of entries, each giving
`sg_phys(sg)` and `sg->length`; `sgt->nents` is the length of the list.
-/

set_option autoImplicit false

namespace ModsDmabuf

/-! ## Data model -/

/-- One `struct scatterlist` entry as the scan reads it: `phys` is
`sg_phys(sg)` (a `phys_addr_t`), `length` is `sg->length` (an `unsigned int`). -/
structure Scatterlist where
  phys : Nat
  length : Nat
deriving DecidableEq

/-- The local variables of `esc_mods_dmabuf_get_phys_addr` that the
`for_each_sg` loop reads and writes (lines 47-51 of the source). -/
structure ScanState where
  remaining_offset : Nat
  total_size : Nat
  total_segments : Nat
  physical_address : Nat
  segment_size : Nat
deriving DecidableEq

/-- The arm of the `if` chain in the loop body that a scatter list entry takes,
named after the comments in the source. -/
inductive Branch where
  | not_reached
  | first_sg
  | contiguous
  | discontiguous
deriving DecidableEq

/-- The body of the `for_each_sg` loop (lines 84-100): the state after the entry
was visited, with the arm that was taken.  `discontiguous` is the `break`. -/
def sg_visit (st : ScanState) (sg : Scatterlist) : ScanState × Branch :=
  let st := { st with
    total_size := (st.total_size + sg.length) % 2 ^ 64
    total_segments := (st.total_segments + 1) % 2 ^ 32 }
  if st.remaining_offset ≥ sg.length then
    ({ st with remaining_offset := st.remaining_offset - sg.length }, Branch.not_reached)
  else if st.segment_size = 0 then
    ({ st with
        physical_address := (sg.phys + st.remaining_offset) % 2 ^ 64
        segment_size := (sg.length - st.remaining_offset) % 2 ^ 32
        remaining_offset := 0 }, Branch.first_sg)
  else if sg.phys = (st.physical_address + st.segment_size) % 2 ^ 64 then
    ({ st with segment_size := (st.segment_size + sg.length) % 2 ^ 32 }, Branch.contiguous)
  else
    (st, Branch.discontiguous)

/-- The `for_each_sg` loop (lines 83-101): visit the entries in order, leaving
the loop at the first entry that takes the `discontiguous` arm. -/
def for_each_sg : ScanState → List Scatterlist → ScanState
  | st, [] => st
  | st, sg :: rest =>
    if (sg_visit st sg).2 = Branch.discontiguous then (sg_visit st sg).1
    else for_each_sg (sg_visit st sg).1 rest

/-- The arms taken by the entries the loop visits, in order. -/
def branches_taken : ScanState → List Scatterlist → List Branch
  | _, [] => []
  | st, sg :: rest =>
    if (sg_visit st sg).2 = Branch.discontiguous then [Branch.discontiguous]
    else (sg_visit st sg).2 :: branches_taken (sg_visit st sg).1 rest

/-- The loop state on entry (lines 47-51): `remaining_offset = op->offset`,
everything else zero. -/
def scan_init (offset : Nat) : ScanState :=
  { remaining_offset := offset
    total_size := 0
    total_segments := 0
    physical_address := 0
    segment_size := 0 }

/-- The state in which the loop leaves the locals for a scatter list and an offset. -/
def scan (sgt : List Scatterlist) (offset : Nat) : ScanState :=
  for_each_sg (scan_init offset) sgt

/-- Sum of `sg->length` over a scatter list: the size of the buffer. -/
def total_length (sgt : List Scatterlist) : Nat :=
  (sgt.map Scatterlist.length).sum

/-! ## Kernel pointers and the buffer provider -/

/-- An error number that `ERR_PTR` can carry: `1 .. MAX_ERRNO` (4095). -/
structure Errno where
  val : Nat
  pos : 0 < val
  le_max : val ≤ 4095

/-- What a kernel function returning a pointer hands back: `NULL`, an
`ERR_PTR(-e)`, or a pointer to an object. -/
inductive KPtr (α : Type) where
  | null : KPtr α
  | err_ptr (e : Errno) : KPtr α
  | ptr (v : α) : KPtr α

/-- Linux `EINVAL`. -/
def EINVAL : Int := 22

/-- Linux `EFAULT`. -/
def EFAULT : Int := 14

/-- `PTR_ERR` of an `ERR_PTR(-e)`. -/
def PTR_ERR (e : Errno) : Int := -(e.val : Int)

/-- The buffer provider: the three acquiring calls of the dma-buf interface, as
functions of their arguments.  Buffers and attachments are named by numbers; a
mapped `sg_table` is its list of entries.  The attaching device is always the
module's `dummy_device`. -/
structure DmaBufProvider where
  dma_buf_get : Nat → KPtr Nat
  dma_buf_attach : Nat → KPtr Nat
  dma_buf_map_attachment : Nat → KPtr (List Scatterlist)

/-- A call into the buffer provider, with its arguments. -/
inductive Call where
  | dma_buf_get (fd : Nat)
  | dma_buf_attach (dmabuf : Nat)
  | dma_buf_map_attachment (attachment : Nat)
  | dma_buf_unmap_attachment (attachment : Nat) (sgt : List Scatterlist)
  | dma_buf_detach (dmabuf : Nat) (attachment : Nat)
  | dma_buf_put (dmabuf : Nat)
deriving DecidableEq

/-- The fields of `struct MODS_DMABUF_GET_PHYSICAL_ADDRESS` that the function uses. -/
structure GetPhysAddrOp where
  buf_fd : Nat
  offset : Nat
  physical_address : Nat
  segment_size : Nat
deriving DecidableEq

/-- What a call of `esc_mods_dmabuf_get_phys_addr` leaves behind: the value
returned, `*op` afterwards, and the provider calls made, in order. -/
structure Outcome where
  ret : Int
  op : GetPhysAddrOp
  calls : List Call
deriving DecidableEq

/-- Lines 107-115: the error code and `*op` after the loop. -/
def report (st : ScanState) (op : GetPhysAddrOp) : Int × GetPhysAddrOp :=
  if st.segment_size = 0 then (-EINVAL, op)
  else (0, { op with physical_address := st.physical_address, segment_size := st.segment_size })

/-- The function `esc_mods_dmabuf_get_phys_addr` (lines 40-127).  Logging and the
`WARN_ON` diagnostic are left out. -/
def esc_mods_dmabuf_get_phys_addr (prov : DmaBufProvider) (op : GetPhysAddrOp) : Outcome :=
  match prov.dma_buf_get op.buf_fd with
  | KPtr.null => ⟨-EINVAL, op, [Call.dma_buf_get op.buf_fd]⟩
  | KPtr.err_ptr e => ⟨PTR_ERR e, op, [Call.dma_buf_get op.buf_fd]⟩
  | KPtr.ptr dmabuf =>
    match prov.dma_buf_attach dmabuf with
    | KPtr.null =>
      ⟨-EFAULT, op,
        [Call.dma_buf_get op.buf_fd, Call.dma_buf_attach dmabuf, Call.dma_buf_put dmabuf]⟩
    | KPtr.err_ptr e =>
      ⟨PTR_ERR e, op,
        [Call.dma_buf_get op.buf_fd, Call.dma_buf_attach dmabuf, Call.dma_buf_put dmabuf]⟩
    | KPtr.ptr attachment =>
      match prov.dma_buf_map_attachment attachment with
      | KPtr.null =>
        ⟨-EFAULT, op,
          [Call.dma_buf_get op.buf_fd, Call.dma_buf_attach dmabuf,
           Call.dma_buf_map_attachment attachment,
           Call.dma_buf_detach dmabuf attachment, Call.dma_buf_put dmabuf]⟩
      | KPtr.err_ptr e =>
        ⟨PTR_ERR e, op,
          [Call.dma_buf_get op.buf_fd, Call.dma_buf_attach dmabuf,
           Call.dma_buf_map_attachment attachment,
           Call.dma_buf_detach dmabuf attachment, Call.dma_buf_put dmabuf]⟩
      | KPtr.ptr sgt =>
        ⟨(report (scan sgt op.offset) op).1, (report (scan sgt op.offset) op).2,
          [Call.dma_buf_get op.buf_fd, Call.dma_buf_attach dmabuf,
           Call.dma_buf_map_attachment attachment,
           Call.dma_buf_unmap_attachment attachment sgt,
           Call.dma_buf_detach dmabuf attachment, Call.dma_buf_put dmabuf]⟩

/-- A provider that hands out buffer 1, attachment 2 and the given scatter list
for every request. -/
def provider_of (sgt : List Scatterlist) : DmaBufProvider :=
  { dma_buf_get := fun _ => KPtr.ptr 1
    dma_buf_attach := fun _ => KPtr.ptr 2
    dma_buf_map_attachment := fun _ => KPtr.ptr sgt }

/-- The widths of the locals hold: what every state reached from `scan_init` satisfies. -/
def ScanState.in_range (st : ScanState) : Prop :=
  st.total_size < 2 ^ 64 ∧ st.total_segments < 2 ^ 32 ∧
  st.physical_address < 2 ^ 64 ∧ st.segment_size < 2 ^ 32

/-- The state after the entries of `pre` were all passed over by the
`not_reached` arm. -/
def skipped (st : ScanState) (pre : List Scatterlist) : ScanState :=
  { st with
    remaining_offset := st.remaining_offset - total_length pre
    total_size := (st.total_size + total_length pre) % 2 ^ 64
    total_segments := (st.total_segments + pre.length) % 2 ^ 32 }

/-- The provider `prov` with the scatter list it maps replaced by `sgt`. -/
def with_sgt (prov : DmaBufProvider) (sgt : List Scatterlist) : DmaBufProvider :=
  { prov with dma_buf_map_attachment := fun _ => KPtr.ptr sgt }

/-- Whether a provider call gives back something acquired earlier. -/
def Call.is_release : Call → Bool
  | Call.dma_buf_unmap_attachment _ _ => true
  | Call.dma_buf_detach _ _ => true
  | Call.dma_buf_put _ => true
  | _ => false

/-- The acquisitions that the provider completes for a descriptor, each written
as the call that releases it, in the order they are acquired: `dma_buf_put` for
a buffer that `dma_buf_get` delivered, `dma_buf_detach` for an attachment,
`dma_buf_unmap_attachment` for a mapping. -/
def releases_owed (prov : DmaBufProvider) (fd : Nat) : List Call :=
  match prov.dma_buf_get fd with
  | KPtr.ptr dmabuf =>
    Call.dma_buf_put dmabuf ::
      (match prov.dma_buf_attach dmabuf with
       | KPtr.ptr attachment =>
         Call.dma_buf_detach dmabuf attachment ::
           (match prov.dma_buf_map_attachment attachment with
            | KPtr.ptr sgt => [Call.dma_buf_unmap_attachment attachment sgt]
            | _ => [])
       | _ => [])
  | _ => []

/-- The running sum of the entry lengths: the lengths of entries `0 .. n-1` added up. -/
def running_sum (sgt : List Scatterlist) (n : Nat) : Nat :=
  total_length (sgt.take n)

/-- The length of a contiguous physical run, in unbounded arithmetic: `acc` bytes
starting at physical address `pa` are in hand; each following entry adds its
length as long as it is empty or begins at `pa + acc`, and the first entry that
is not empty and begins elsewhere ends the run. -/
def contiguous_run (pa : Nat) : Nat → List Scatterlist → Nat
  | acc, [] => acc
  | acc, sg :: rest =>
    if sg.length = 0 then contiguous_run pa acc rest
    else if sg.phys = pa + acc then contiguous_run pa (acc + sg.length) rest
    else acc

/-- The physical address of byte `offset` of the buffer when entry `k` holds it:
the base of entry `k` plus what is left of the offset after entries `0 .. k-1`. -/
def address_at (sgt : List Scatterlist) (offset k : Nat) : Nat :=
  match sgt.drop k with
  | [] => 0
  | sg :: _ => sg.phys + (offset - running_sum sgt k)

/-- The length of the contiguous physical run that begins at byte `offset` of
the buffer when entry `k` holds it: the rest of entry `k`, plus the entries
behind it that continue the run. -/
def run_at (sgt : List Scatterlist) (offset k : Nat) : Nat :=
  match sgt.drop k with
  | [] => 0
  | sg :: rest =>
    contiguous_run (sg.phys + (offset - running_sum sgt k))
      (sg.length - (offset - running_sum sgt k)) rest

/-- The bytes that visiting an entry puts into the segment, counted without
wrap-around: the part of the entry behind the offset on the `first_sg` arm, the
whole entry on the `contiguous` arm, nothing otherwise. -/
def bytes_merged (st : ScanState) (sg : Scatterlist) : Nat :=
  match (sg_visit st sg).2 with
  | Branch.first_sg => sg.length - st.remaining_offset
  | Branch.contiguous => sg.length
  | _ => 0

/-- The merged run of the loop: the bytes that the entries it visits put into
the segment, added up without wrap-around. -/
def merged_run : ScanState → List Scatterlist → Nat
  | _, [] => 0
  | st, sg :: rest =>
    if (sg_visit st sg).2 = Branch.discontiguous then 0
    else bytes_merged st sg + merged_run (sg_visit st sg).1 rest

/-- The locals of the scan over unbounded natural numbers: `opened` says whether
a segment was opened, instead of `segment_size != 0`. -/
structure UnboundedState where
  remaining_offset : Nat
  opened : Bool
  physical_address : Nat
  segment_size : Nat
deriving DecidableEq

/-- The loop body over unbounded natural numbers with the explicit `opened` flag:
the same four arms, no addition wraps.  The second component says whether the
loop goes on (`false` is the `break`). -/
def sg_visit_unbounded (st : UnboundedState) (sg : Scatterlist) : UnboundedState × Bool :=
  if st.remaining_offset ≥ sg.length then
    ({ st with remaining_offset := st.remaining_offset - sg.length }, true)
  else if st.opened = false then
    ({ remaining_offset := 0
       opened := true
       physical_address := sg.phys + st.remaining_offset
       segment_size := sg.length - st.remaining_offset }, true)
  else if sg.phys = st.physical_address + st.segment_size then
    ({ st with segment_size := st.segment_size + sg.length }, true)
  else
    (st, false)

/-- The loop over unbounded natural numbers. -/
def for_each_sg_unbounded : UnboundedState → List Scatterlist → UnboundedState
  | st, [] => st
  | st, sg :: rest =>
    if (sg_visit_unbounded st sg).2 = false then (sg_visit_unbounded st sg).1
    else for_each_sg_unbounded (sg_visit_unbounded st sg).1 rest

/-- The scan over unbounded natural numbers for a scatter list and an offset. -/
def scan_unbounded (sgt : List Scatterlist) (offset : Nat) : UnboundedState :=
  for_each_sg_unbounded
    { remaining_offset := offset, opened := false, physical_address := 0, segment_size := 0 } sgt

/-- The error code and `*op` after the unbounded scan: `-EINVAL` when no segment
was opened, else 0 with the two output fields written. -/
def report_unbounded (st : UnboundedState) (op : GetPhysAddrOp) : Int × GetPhysAddrOp :=
  if st.opened = false then (-EINVAL, op)
  else (0, { op with physical_address := st.physical_address, segment_size := st.segment_size })

/-! ## The loop: general lemmas -/

theorem total_length_nil : total_length [] = 0 := rfl

theorem total_length_cons (sg : Scatterlist) (l : List Scatterlist) :
    total_length (sg :: l) = sg.length + total_length l := by
  simp [total_length]

theorem total_length_append (l₁ l₂ : List Scatterlist) :
    total_length (l₁ ++ l₂) = total_length l₁ + total_length l₂ := by
  simp [total_length]

theorem scan_init_in_range (offset : Nat) : (scan_init offset).in_range := by
  simp [scan_init, ScanState.in_range]

theorem sg_visit_in_range (st : ScanState) (sg : Scatterlist) (h : st.in_range) :
    (sg_visit st sg).1.in_range := by
  obtain ⟨h1, h2, h3, h4⟩ := h
  unfold sg_visit
  simp only [ScanState.in_range]
  split_ifs <;> simp only [] <;>
    refine ⟨?_, ?_, ?_, ?_⟩ <;> first | assumption | exact Nat.mod_lt _ (by norm_num)

theorem for_each_sg_in_range (l : List Scatterlist) (st : ScanState) (h : st.in_range) :
    (for_each_sg st l).in_range := by
  induction l generalizing st with
  | nil => simpa [for_each_sg] using h
  | cons sg rest ih =>
    simp only [for_each_sg]
    split_ifs
    · exact sg_visit_in_range st sg h
    · exact ih _ (sg_visit_in_range st sg h)

theorem sg_visit_not_reached (st : ScanState) (sg : Scatterlist)
    (h : sg.length ≤ st.remaining_offset) :
    sg_visit st sg = (skipped st [sg], Branch.not_reached) := by
  simp [sg_visit, skipped, total_length, h]

theorem skipped_nil (st : ScanState) (h : st.in_range) : skipped st [] = st := by
  obtain ⟨h1, h2, -, -⟩ := h
  cases st
  simp only [skipped, total_length_nil, List.length_nil, Nat.add_zero, Nat.sub_zero] at *
  simp [Nat.mod_eq_of_lt h1, Nat.mod_eq_of_lt h2]
  exact ⟨by simpa using h1, by simpa using h2⟩

theorem skipped_cons (st : ScanState) (sg : Scatterlist) (pre : List Scatterlist) :
    skipped (skipped st [sg]) pre = skipped st (sg :: pre) := by
  simp only [skipped, total_length_cons, total_length_nil, List.length_cons, List.length_nil,
    ScanState.mk.injEq]
  refine ⟨by omega, by omega, by omega, trivial, trivial⟩

theorem skipped_in_range (st : ScanState) (pre : List Scatterlist) (h : st.in_range) :
    (skipped st pre).in_range := by
  obtain ⟨-, -, h3, h4⟩ := h
  exact ⟨Nat.mod_lt _ (by norm_num), Nat.mod_lt _ (by norm_num), h3, h4⟩

/-- Entries that end at or before the offset are passed over: the loop continues
behind them from the `skipped` state. -/
theorem for_each_sg_skip (pre rest : List Scatterlist) (st : ScanState) (h : st.in_range)
    (hle : total_length pre ≤ st.remaining_offset) :
    for_each_sg st (pre ++ rest) = for_each_sg (skipped st pre) rest := by
  induction pre generalizing st with
  | nil => simp [skipped_nil st h]
  | cons sg pre ih =>
    rw [total_length_cons] at hle
    have hv := sg_visit_not_reached st sg (by omega)
    have hr : total_length pre ≤ (skipped st [sg]).remaining_offset := by
      simp only [skipped, total_length_cons, total_length_nil]; omega
    rw [List.cons_append]
    simp only [for_each_sg, hv, reduceCtorEq, if_false]
    rw [ih _ (skipped_in_range st [sg] h) hr, skipped_cons]

theorem branches_taken_skip (pre rest : List Scatterlist) (st : ScanState) (h : st.in_range)
    (hle : total_length pre ≤ st.remaining_offset) :
    branches_taken st (pre ++ rest)
      = List.replicate pre.length Branch.not_reached ++ branches_taken (skipped st pre) rest := by
  induction pre generalizing st with
  | nil => simp [skipped_nil st h]
  | cons sg pre ih =>
    rw [total_length_cons] at hle
    have hv := sg_visit_not_reached st sg (by omega)
    have hr : total_length pre ≤ (skipped st [sg]).remaining_offset := by
      simp only [skipped, total_length_cons, total_length_nil]; omega
    rw [List.cons_append]
    simp only [branches_taken, hv, reduceCtorEq, if_false]
    rw [ih _ (skipped_in_range st [sg] h) hr, skipped_cons]
    simp [List.replicate_succ]

/-! ## Offsets at or past the end -/

/-- C3: for every scatter list and every 64-bit offset that is at least the sum
of all entry lengths, every entry is visited and takes the `not_reached` arm (no
segment is ever opened), the loop ends with `total_size` equal to the sum of all
lengths and `segment_size` still 0, and the request returns `-EINVAL` and leaves
`*op` alone. -/
theorem offset_past_end_rejected (prov : DmaBufProvider) (op : GetPhysAddrOp)
    (dmabuf attachment : Nat) (sgt : List Scatterlist)
    (hget : prov.dma_buf_get op.buf_fd = KPtr.ptr dmabuf)
    (hattach : prov.dma_buf_attach dmabuf = KPtr.ptr attachment)
    (hmap : prov.dma_buf_map_attachment attachment = KPtr.ptr sgt)
    (hoff : op.offset < 2 ^ 64) (hge : total_length sgt ≤ op.offset) :
    branches_taken (scan_init op.offset) sgt
        = List.replicate sgt.length Branch.not_reached ∧
      (scan sgt op.offset).total_size = total_length sgt ∧
      (scan sgt op.offset).segment_size = 0 ∧
      (esc_mods_dmabuf_get_phys_addr prov op).ret = -EINVAL ∧
      (esc_mods_dmabuf_get_phys_addr prov op).op = op := by
  have hb := branches_taken_skip sgt [] (scan_init op.offset) (scan_init_in_range _) hge
  have hf := for_each_sg_skip sgt [] (scan_init op.offset) (scan_init_in_range _) hge
  simp only [List.append_nil, for_each_sg, branches_taken] at hb hf
  have hts : (scan sgt op.offset).total_size = total_length sgt := by
    rw [scan, hf]
    simp only [skipped, scan_init, Nat.zero_add]
    exact Nat.mod_eq_of_lt (show total_length sgt < 2 ^ 64 by omega)
  have hseg : (scan sgt op.offset).segment_size = 0 := by
    rw [scan, hf]
    simp only [skipped, scan_init]
  refine ⟨hb, hts, hseg, ?_, ?_⟩ <;>
    simp [esc_mods_dmabuf_get_phys_addr, hget, hattach, hmap, report, hseg]

/-- C3, at the single entry `(0x4000, 0x10)` with offset `0x10`: the request
fails with `total_size = 0x10`. -/
theorem offset_past_end_rejected_witness :
    (scan [⟨0x4000, 0x10⟩] 0x10).total_size = 0x10 ∧
      (esc_mods_dmabuf_get_phys_addr (provider_of [⟨0x4000, 0x10⟩]) ⟨3, 0x10, 0, 0⟩).ret
        = -EINVAL :=
  have h := offset_past_end_rejected (provider_of [⟨0x4000, 0x10⟩]) ⟨3, 0x10, 0, 0⟩ 1 2
    [⟨0x4000, 0x10⟩] rfl rfl rfl (by norm_num) (by decide)
  ⟨h.2.1, h.2.2.2.1⟩

/-! ## The diagnostic counter does not steer the loop -/

theorem sg_visit_set_total_segments (st : ScanState) (n : Nat) (sg : Scatterlist) :
    sg_visit { st with total_segments := n } sg
      = ({ (sg_visit st sg).1 with total_segments := (n + 1) % 2 ^ 32 }, (sg_visit st sg).2) := by
  unfold sg_visit
  simp only []
  split_ifs <;> rfl

theorem for_each_sg_set_total_segments (l : List Scatterlist) (st : ScanState) (n : Nat) :
    ∃ m, for_each_sg { st with total_segments := n } l
      = { for_each_sg st l with total_segments := m } := by
  induction l generalizing st n with
  | nil => exact ⟨n, rfl⟩
  | cons sg rest ih =>
    simp only [for_each_sg, sg_visit_set_total_segments]
    split_ifs
    · exact ⟨_, rfl⟩
    · exact ih _ _

theorem sg_visit_zero_length (st : ScanState) (X : Nat) (h : st.total_size < 2 ^ 64) :
    sg_visit st ⟨X, 0⟩
      = ({ st with total_segments := (st.total_segments + 1) % 2 ^ 32 }, Branch.not_reached) := by
  have h' : st.total_size % 18446744073709551616 = st.total_size :=
    Nat.mod_eq_of_lt (by simpa using h)
  simp [sg_visit, h']

theorem sg_visit_total_size_lt (st : ScanState) (sg : Scatterlist) :
    (sg_visit st sg).1.total_size < 2 ^ 64 := by
  unfold sg_visit
  simp only []
  split_ifs <;> exact Nat.mod_lt _ (by norm_num)

/-- An entry of length 0 put anywhere into the list changes nothing of what the
loop leaves behind except `total_segments`. -/
theorem for_each_sg_insert_zero_length (pre post : List Scatterlist) (X : Nat) (st : ScanState)
    (h : st.total_size < 2 ^ 64) :
    ∃ m, for_each_sg st (pre ++ ⟨X, 0⟩ :: post)
      = { for_each_sg st (pre ++ post) with total_segments := m } := by
  induction pre generalizing st with
  | nil =>
    simp only [List.nil_append, for_each_sg, sg_visit_zero_length st X h, reduceCtorEq, if_false]
    exact for_each_sg_set_total_segments post st _
  | cons sg pre ih =>
    rw [List.cons_append, List.cons_append]
    simp only [for_each_sg]
    split_ifs
    · exact ⟨_, rfl⟩
    · exact ih _ (sg_visit_total_size_lt st sg)

/-- C6: for every scatter list, every position `i` in it, every physical base
`X` and every request, putting an entry `(X, 0)` at position `i` leaves the
outcome unchanged: the same return value and the same `*op` afterwards (so the
same `physical_address` and `segment_size`), and the loop ends with the same
`total_size`, `physical_address`, `segment_size` and `remaining_offset`. -/
theorem zero_length_entry_transparent (prov : DmaBufProvider) (op : GetPhysAddrOp)
    (sgt : List Scatterlist) (i X : Nat) :
    (esc_mods_dmabuf_get_phys_addr (with_sgt prov (sgt.take i ++ ⟨X, 0⟩ :: sgt.drop i)) op).ret
        = (esc_mods_dmabuf_get_phys_addr (with_sgt prov sgt) op).ret ∧
      (esc_mods_dmabuf_get_phys_addr (with_sgt prov (sgt.take i ++ ⟨X, 0⟩ :: sgt.drop i)) op).op
        = (esc_mods_dmabuf_get_phys_addr (with_sgt prov sgt) op).op ∧
      (scan (sgt.take i ++ ⟨X, 0⟩ :: sgt.drop i) op.offset).total_size
        = (scan sgt op.offset).total_size ∧
      (scan (sgt.take i ++ ⟨X, 0⟩ :: sgt.drop i) op.offset).physical_address
        = (scan sgt op.offset).physical_address ∧
      (scan (sgt.take i ++ ⟨X, 0⟩ :: sgt.drop i) op.offset).segment_size
        = (scan sgt op.offset).segment_size ∧
      (scan (sgt.take i ++ ⟨X, 0⟩ :: sgt.drop i) op.offset).remaining_offset
        = (scan sgt op.offset).remaining_offset := by
  obtain ⟨m, hm⟩ := for_each_sg_insert_zero_length (sgt.take i) (sgt.drop i) X
    (scan_init op.offset) (by simp [scan_init])
  rw [List.take_append_drop] at hm
  have hscan : scan (sgt.take i ++ ⟨X, 0⟩ :: sgt.drop i) op.offset
      = { scan sgt op.offset with total_segments := m } := hm
  have hrep : report (scan (sgt.take i ++ ⟨X, 0⟩ :: sgt.drop i) op.offset) op
      = report (scan sgt op.offset) op := by
    simp only [hscan, report]
  refine ⟨?_, ?_, by rw [hscan], by rw [hscan], by rw [hscan], by rw [hscan]⟩
  · rcases h1 : prov.dma_buf_get op.buf_fd with _ | e | dmabuf <;>
      simp only [esc_mods_dmabuf_get_phys_addr, with_sgt, h1]
    rcases h2 : prov.dma_buf_attach dmabuf with _ | e | attachment <;> simp only [hrep]
  · rcases h1 : prov.dma_buf_get op.buf_fd with _ | e | dmabuf <;>
      simp only [esc_mods_dmabuf_get_phys_addr, with_sgt, h1]
    rcases h2 : prov.dma_buf_attach dmabuf with _ | e | attachment <;> simp only [hrep]

/-! ## Return value and output fields -/

theorem PTR_ERR_ne_zero (e : Errno) : PTR_ERR e ≠ 0 := by
  have := e.pos
  simp only [PTR_ERR]
  omega

/-- C7: for every request that fails (returns a non-zero value, whatever the
stage that failed), `*op` afterwards is `*op` before: `op->physical_address` and
`op->segment_size` hold the values they held before the call. -/
theorem failure_leaves_op_untouched (prov : DmaBufProvider) (op : GetPhysAddrOp)
    (hfail : (esc_mods_dmabuf_get_phys_addr prov op).ret ≠ 0) :
    (esc_mods_dmabuf_get_phys_addr prov op).op.physical_address = op.physical_address ∧
      (esc_mods_dmabuf_get_phys_addr prov op).op.segment_size = op.segment_size ∧
      (esc_mods_dmabuf_get_phys_addr prov op).op = op := by
  have key : (esc_mods_dmabuf_get_phys_addr prov op).op = op := by
    rcases h1 : prov.dma_buf_get op.buf_fd with _ | e | dmabuf <;>
      simp only [esc_mods_dmabuf_get_phys_addr, h1] at hfail ⊢
    rcases h2 : prov.dma_buf_attach dmabuf with _ | e | attachment <;>
      simp only [h2] at hfail ⊢
    rcases h3 : prov.dma_buf_map_attachment attachment with _ | e | sgt <;>
      simp only [h3] at hfail ⊢
    simp only [report] at hfail ⊢
    split_ifs at hfail ⊢
    · rfl
    · exact absurd rfl hfail
  exact ⟨by rw [key], by rw [key], key⟩

/-- C7, at a request whose offset is the size of the buffer: it fails, and the
output fields keep the values `0xAAAA` and `0x55` they had. -/
theorem failure_leaves_op_untouched_witness :
    (esc_mods_dmabuf_get_phys_addr (provider_of [⟨0x4000, 0x10⟩]) ⟨3, 0x10, 0xAAAA, 0x55⟩).ret ≠ 0 ∧
      (esc_mods_dmabuf_get_phys_addr (provider_of [⟨0x4000, 0x10⟩])
          ⟨3, 0x10, 0xAAAA, 0x55⟩).op.physical_address = 0xAAAA ∧
      (esc_mods_dmabuf_get_phys_addr (provider_of [⟨0x4000, 0x10⟩])
          ⟨3, 0x10, 0xAAAA, 0x55⟩).op.segment_size = 0x55 :=
  have h := failure_leaves_op_untouched (provider_of [⟨0x4000, 0x10⟩]) ⟨3, 0x10, 0xAAAA, 0x55⟩
    (by decide)
  ⟨by decide, h.1, h.2.1⟩

/-- C8: whenever `esc_mods_dmabuf_get_phys_addr` returns 0, the value it stored
in `op->segment_size` is strictly greater than 0 and fits 32 bits. -/
theorem success_segment_size_positive (prov : DmaBufProvider) (op : GetPhysAddrOp)
    (hok : (esc_mods_dmabuf_get_phys_addr prov op).ret = 0) :
    0 < (esc_mods_dmabuf_get_phys_addr prov op).op.segment_size ∧
      (esc_mods_dmabuf_get_phys_addr prov op).op.segment_size < 2 ^ 32 := by
  rcases h1 : prov.dma_buf_get op.buf_fd with _ | e | dmabuf <;>
    simp only [esc_mods_dmabuf_get_phys_addr, h1] at hok ⊢
  · simp [EINVAL] at hok
  · exact absurd hok (PTR_ERR_ne_zero e)
  rcases h2 : prov.dma_buf_attach dmabuf with _ | e | attachment <;>
    simp only [h2] at hok ⊢
  · simp [EFAULT] at hok
  · exact absurd hok (PTR_ERR_ne_zero e)
  rcases h3 : prov.dma_buf_map_attachment attachment with _ | e | sgt <;>
    simp only [h3] at hok ⊢
  · simp [EFAULT] at hok
  · exact absurd hok (PTR_ERR_ne_zero e)
  have hr := (for_each_sg_in_range sgt (scan_init op.offset) (scan_init_in_range _)).2.2.2
  simp only [report] at hok ⊢
  split_ifs at hok ⊢ with hz
  · simp [EINVAL] at hok
  · exact ⟨Nat.pos_of_ne_zero hz, hr⟩

/-- C8, at the list `[(0x1000,0x100),(0x1100,0x100),(0x2000,0x100)]` with offset
`0x50`: the request returns 0 and stores `0x1B0`. -/
theorem success_segment_size_positive_witness :
    (esc_mods_dmabuf_get_phys_addr
        (provider_of [⟨0x1000, 0x100⟩, ⟨0x1100, 0x100⟩, ⟨0x2000, 0x100⟩]) ⟨3, 0x50, 0, 0⟩).ret = 0 ∧
      0 < (esc_mods_dmabuf_get_phys_addr
        (provider_of [⟨0x1000, 0x100⟩, ⟨0x1100, 0x100⟩, ⟨0x2000, 0x100⟩])
        ⟨3, 0x50, 0, 0⟩).op.segment_size ∧
      (esc_mods_dmabuf_get_phys_addr
        (provider_of [⟨0x1000, 0x100⟩, ⟨0x1100, 0x100⟩, ⟨0x2000, 0x100⟩])
        ⟨3, 0x50, 0, 0⟩).op.segment_size < 2 ^ 32 :=
  ⟨by decide, success_segment_size_positive
    (provider_of [⟨0x1000, 0x100⟩, ⟨0x1100, 0x100⟩, ⟨0x2000, 0x100⟩]) ⟨3, 0x50, 0, 0⟩ (by decide)⟩

theorem for_each_sg_never_opened (l : List Scatterlist) (st : ScanState)
    (hz : st.segment_size = 0) (h : Branch.first_sg ∉ branches_taken st l) :
    (for_each_sg st l).segment_size = 0 := by
  induction l generalizing st with
  | nil => simpa [for_each_sg] using hz
  | cons sg rest ih =>
    have hv : (sg_visit st sg).2 = Branch.first_sg ∨
        ((sg_visit st sg).2 = Branch.not_reached ∧ (sg_visit st sg).1.segment_size = 0) := by
      unfold sg_visit
      simp only [hz]
      split_ifs <;> simp
    rcases hv with hv | ⟨hb, hs⟩
    · simp [branches_taken, hv] at h
    · simp only [branches_taken, hb, reduceCtorEq, if_false, List.mem_cons, not_or] at h
      simp only [for_each_sg, hb, reduceCtorEq, if_false]
      exact ih _ hs h.2

/-- The return value by stage, with the test of line 107 for the segment: the
return value is 0 exactly when `dma_buf_get`, `dma_buf_attach` and
`dma_buf_map_attachment` all deliver an object and the loop ends with
`segment_size != 0`; a request that returns 0 has taken the `first_sg` arm, and
one whose loop never took it returns `-EINVAL`.  A stage refused with
`ERR_PTR(-e)` makes the request return `-e`; a `NULL` makes it return `-EINVAL`
from `dma_buf_get` and `-EFAULT` from `dma_buf_attach` or
`dma_buf_map_attachment`; when all stages succeed and no segment is open the
request returns `-EINVAL`. -/
theorem return_value_by_stage (prov : DmaBufProvider) (op : GetPhysAddrOp) :
    ((esc_mods_dmabuf_get_phys_addr prov op).ret = 0 ↔
        ∃ dmabuf attachment sgt,
          prov.dma_buf_get op.buf_fd = KPtr.ptr dmabuf ∧
          prov.dma_buf_attach dmabuf = KPtr.ptr attachment ∧
          prov.dma_buf_map_attachment attachment = KPtr.ptr sgt ∧
          (scan sgt op.offset).segment_size ≠ 0) ∧
      (∀ e, prov.dma_buf_get op.buf_fd = KPtr.err_ptr e →
        (esc_mods_dmabuf_get_phys_addr prov op).ret = -(e.val : Int)) ∧
      (prov.dma_buf_get op.buf_fd = KPtr.null →
        (esc_mods_dmabuf_get_phys_addr prov op).ret = -EINVAL) ∧
      (∀ dmabuf e, prov.dma_buf_get op.buf_fd = KPtr.ptr dmabuf →
        prov.dma_buf_attach dmabuf = KPtr.err_ptr e →
        (esc_mods_dmabuf_get_phys_addr prov op).ret = -(e.val : Int)) ∧
      (∀ dmabuf, prov.dma_buf_get op.buf_fd = KPtr.ptr dmabuf →
        prov.dma_buf_attach dmabuf = KPtr.null →
        (esc_mods_dmabuf_get_phys_addr prov op).ret = -EFAULT) ∧
      (∀ dmabuf attachment e, prov.dma_buf_get op.buf_fd = KPtr.ptr dmabuf →
        prov.dma_buf_attach dmabuf = KPtr.ptr attachment →
        prov.dma_buf_map_attachment attachment = KPtr.err_ptr e →
        (esc_mods_dmabuf_get_phys_addr prov op).ret = -(e.val : Int)) ∧
      (∀ dmabuf attachment, prov.dma_buf_get op.buf_fd = KPtr.ptr dmabuf →
        prov.dma_buf_attach dmabuf = KPtr.ptr attachment →
        prov.dma_buf_map_attachment attachment = KPtr.null →
        (esc_mods_dmabuf_get_phys_addr prov op).ret = -EFAULT) ∧
      (∀ dmabuf attachment sgt, prov.dma_buf_get op.buf_fd = KPtr.ptr dmabuf →
        prov.dma_buf_attach dmabuf = KPtr.ptr attachment →
        prov.dma_buf_map_attachment attachment = KPtr.ptr sgt →
        (scan sgt op.offset).segment_size = 0 →
        (esc_mods_dmabuf_get_phys_addr prov op).ret = -EINVAL) ∧
      (∀ dmabuf attachment sgt, prov.dma_buf_get op.buf_fd = KPtr.ptr dmabuf →
        prov.dma_buf_attach dmabuf = KPtr.ptr attachment →
        prov.dma_buf_map_attachment attachment = KPtr.ptr sgt →
        Branch.first_sg ∉ branches_taken (scan_init op.offset) sgt →
        (esc_mods_dmabuf_get_phys_addr prov op).ret = -EINVAL) ∧
      (∀ dmabuf attachment sgt, prov.dma_buf_get op.buf_fd = KPtr.ptr dmabuf →
        prov.dma_buf_attach dmabuf = KPtr.ptr attachment →
        prov.dma_buf_map_attachment attachment = KPtr.ptr sgt →
        (esc_mods_dmabuf_get_phys_addr prov op).ret = 0 →
        Branch.first_sg ∈ branches_taken (scan_init op.offset) sgt) := by
  refine ⟨?_, ?_, ?_, ?_, ?_, ?_, ?_, ?_, ?_, ?_⟩
  · rcases h1 : prov.dma_buf_get op.buf_fd with _ | e | dmabuf <;>
      simp only [esc_mods_dmabuf_get_phys_addr, h1]
    · simp [EINVAL]
    · simpa using PTR_ERR_ne_zero e
    rcases h2 : prov.dma_buf_attach dmabuf with _ | e | attachment <;> simp only [h2]
    · simp [EFAULT, h2]
    · simpa [h2] using PTR_ERR_ne_zero e
    rcases h3 : prov.dma_buf_map_attachment attachment with _ | e | sgt <;> simp only [h3]
    · simp [EFAULT, h2, h3]
    · simpa [h2, h3] using PTR_ERR_ne_zero e
    simp only [report]
    split_ifs with hz
    · simp [EINVAL, h2, h3, hz]
    · simp [h2, h3, hz]
  · intro e h1
    simp [esc_mods_dmabuf_get_phys_addr, h1, PTR_ERR]
  · intro h1
    simp [esc_mods_dmabuf_get_phys_addr, h1]
  · intro dmabuf e h1 h2
    simp [esc_mods_dmabuf_get_phys_addr, h1, h2, PTR_ERR]
  · intro dmabuf h1 h2
    simp [esc_mods_dmabuf_get_phys_addr, h1, h2]
  · intro dmabuf attachment e h1 h2 h3
    simp [esc_mods_dmabuf_get_phys_addr, h1, h2, h3, PTR_ERR]
  · intro dmabuf attachment h1 h2 h3
    simp [esc_mods_dmabuf_get_phys_addr, h1, h2, h3]
  · intro dmabuf attachment sgt h1 h2 h3 hz
    simp [esc_mods_dmabuf_get_phys_addr, h1, h2, h3, report, hz]
  · intro dmabuf attachment sgt h1 h2 h3 hno
    have hz : (scan sgt op.offset).segment_size = 0 :=
      for_each_sg_never_opened sgt (scan_init op.offset) rfl hno
    simp [esc_mods_dmabuf_get_phys_addr, h1, h2, h3, report, hz]
  · intro dmabuf attachment sgt h1 h2 h3 hret
    by_contra hno
    have hz : (scan sgt op.offset).segment_size = 0 :=
      for_each_sg_never_opened sgt (scan_init op.offset) rfl hno
    simp [esc_mods_dmabuf_get_phys_addr, h1, h2, h3, report, hz, EINVAL] at hret

/-- The return value at three requests: a descriptor refused with `ERR_PTR(-9)` returns `-9`, an
attachment that comes back `NULL` returns `-EFAULT`, and a fully successful
request returns 0. -/
theorem return_value_by_stage_witness :
    (esc_mods_dmabuf_get_phys_addr
        { dma_buf_get := fun _ => KPtr.err_ptr ⟨9, by decide, by decide⟩
          dma_buf_attach := fun _ => KPtr.ptr 2
          dma_buf_map_attachment := fun _ => KPtr.ptr [] } ⟨3, 0, 0, 0⟩).ret = -9 ∧
      (esc_mods_dmabuf_get_phys_addr
        { dma_buf_get := fun _ => KPtr.ptr 1
          dma_buf_attach := fun _ => KPtr.null
          dma_buf_map_attachment := fun _ => KPtr.ptr [] } ⟨3, 0, 0, 0⟩).ret = -EFAULT ∧
      (esc_mods_dmabuf_get_phys_addr (provider_of [⟨0x4000, 0x10⟩]) ⟨3, 0, 0, 0⟩).ret = 0 :=
  ⟨(return_value_by_stage
      { dma_buf_get := fun _ => KPtr.err_ptr ⟨9, by decide, by decide⟩
        dma_buf_attach := fun _ => KPtr.ptr 2
        dma_buf_map_attachment := fun _ => KPtr.ptr [] } ⟨3, 0, 0, 0⟩).2.1 _ rfl,
    (return_value_by_stage
      { dma_buf_get := fun _ => KPtr.ptr 1
        dma_buf_attach := fun _ => KPtr.null
        dma_buf_map_attachment := fun _ => KPtr.ptr [] } ⟨3, 0, 0, 0⟩).2.2.2.2.1 1 rfl rfl,
    ((return_value_by_stage (provider_of [⟨0x4000, 0x10⟩]) ⟨3, 0, 0, 0⟩).1).2
      ⟨1, 2, [⟨0x4000, 0x10⟩], rfl, rfl, rfl, by decide⟩⟩

/-! ## Acquire and release -/

/-- C4: with the provider's calls recorded, for every provider and request the
release calls made are exactly the reverse of the acquisitions that completed,
each once and all of them after the last acquiring call; in particular none
after a failed `dma_buf_get`, `dma_buf_put` alone after a failed attach,
`dma_buf_detach` then `dma_buf_put` after a failed map, and
`dma_buf_unmap_attachment`, `dma_buf_detach`, `dma_buf_put` whenever the map
succeeded, whatever the loop found. -/
theorem releases_mirror_acquisitions (prov : DmaBufProvider) (op : GetPhysAddrOp) :
    (esc_mods_dmabuf_get_phys_addr prov op).calls.filter Call.is_release
        = (releases_owed prov op.buf_fd).reverse ∧
      (∃ acquiring, (∀ c ∈ acquiring, Call.is_release c = false) ∧
        (esc_mods_dmabuf_get_phys_addr prov op).calls
          = acquiring ++ (releases_owed prov op.buf_fd).reverse) ∧
      ((∀ dmabuf, prov.dma_buf_get op.buf_fd ≠ KPtr.ptr dmabuf) →
        (esc_mods_dmabuf_get_phys_addr prov op).calls.filter Call.is_release = []) ∧
      (∀ dmabuf, prov.dma_buf_get op.buf_fd = KPtr.ptr dmabuf →
        (∀ attachment, prov.dma_buf_attach dmabuf ≠ KPtr.ptr attachment) →
        (esc_mods_dmabuf_get_phys_addr prov op).calls.filter Call.is_release
          = [Call.dma_buf_put dmabuf]) ∧
      (∀ dmabuf attachment, prov.dma_buf_get op.buf_fd = KPtr.ptr dmabuf →
        prov.dma_buf_attach dmabuf = KPtr.ptr attachment →
        (∀ sgt, prov.dma_buf_map_attachment attachment ≠ KPtr.ptr sgt) →
        (esc_mods_dmabuf_get_phys_addr prov op).calls.filter Call.is_release
          = [Call.dma_buf_detach dmabuf attachment, Call.dma_buf_put dmabuf]) ∧
      (∀ dmabuf attachment sgt, prov.dma_buf_get op.buf_fd = KPtr.ptr dmabuf →
        prov.dma_buf_attach dmabuf = KPtr.ptr attachment →
        prov.dma_buf_map_attachment attachment = KPtr.ptr sgt →
        (esc_mods_dmabuf_get_phys_addr prov op).calls.filter Call.is_release
          = [Call.dma_buf_unmap_attachment attachment sgt,
             Call.dma_buf_detach dmabuf attachment, Call.dma_buf_put dmabuf]) := by
  refine ⟨?_, ?_, ?_, ?_, ?_, ?_⟩
  · rcases h1 : prov.dma_buf_get op.buf_fd with _ | e | dmabuf <;>
      simp only [esc_mods_dmabuf_get_phys_addr, releases_owed, h1] <;> try rfl
    rcases h2 : prov.dma_buf_attach dmabuf with _ | e | attachment <;>
      simp only [h2] <;> try rfl
    rcases h3 : prov.dma_buf_map_attachment attachment with _ | e | sgt <;>
      simp only [h3] <;> rfl
  · rcases h1 : prov.dma_buf_get op.buf_fd with _ | e | dmabuf <;>
      simp only [esc_mods_dmabuf_get_phys_addr, releases_owed, h1]
    · exact ⟨[Call.dma_buf_get op.buf_fd], by simp [Call.is_release], rfl⟩
    · exact ⟨[Call.dma_buf_get op.buf_fd], by simp [Call.is_release], rfl⟩
    rcases h2 : prov.dma_buf_attach dmabuf with _ | e | attachment <;> simp only [h2]
    · exact ⟨[Call.dma_buf_get op.buf_fd, Call.dma_buf_attach dmabuf],
        by simp [Call.is_release], rfl⟩
    · exact ⟨[Call.dma_buf_get op.buf_fd, Call.dma_buf_attach dmabuf],
        by simp [Call.is_release], rfl⟩
    rcases h3 : prov.dma_buf_map_attachment attachment with _ | e | sgt <;> simp only [h3]
    · exact ⟨[Call.dma_buf_get op.buf_fd, Call.dma_buf_attach dmabuf,
        Call.dma_buf_map_attachment attachment], by simp [Call.is_release], rfl⟩
    · exact ⟨[Call.dma_buf_get op.buf_fd, Call.dma_buf_attach dmabuf,
        Call.dma_buf_map_attachment attachment], by simp [Call.is_release], rfl⟩
    · exact ⟨[Call.dma_buf_get op.buf_fd, Call.dma_buf_attach dmabuf,
        Call.dma_buf_map_attachment attachment], by simp [Call.is_release], rfl⟩
  · intro h
    rcases h1 : prov.dma_buf_get op.buf_fd with _ | e | dmabuf <;>
      simp only [esc_mods_dmabuf_get_phys_addr, h1] <;> try rfl
    exact absurd h1 (h dmabuf)
  · intro dmabuf h1 h
    rcases h2 : prov.dma_buf_attach dmabuf with _ | e | attachment <;>
      simp only [esc_mods_dmabuf_get_phys_addr, h1, h2] <;> try rfl
    exact absurd h2 (h attachment)
  · intro dmabuf attachment h1 h2 h
    rcases h3 : prov.dma_buf_map_attachment attachment with _ | e | sgt <;>
      simp only [esc_mods_dmabuf_get_phys_addr, h1, h2, h3] <;> try rfl
    exact absurd h3 (h sgt)
  · intro dmabuf attachment sgt h1 h2 h3
    simp only [esc_mods_dmabuf_get_phys_addr, h1, h2, h3]
    rfl

/-- C4 at two requests: when the map is refused the releases recorded are
`dma_buf_detach`, `dma_buf_put`; when everything is acquired and the offset is
out of range they are `dma_buf_unmap_attachment`, `dma_buf_detach`,
`dma_buf_put`. -/
theorem releases_mirror_acquisitions_witness :
    (esc_mods_dmabuf_get_phys_addr
        { dma_buf_get := fun _ => KPtr.ptr 1
          dma_buf_attach := fun _ => KPtr.ptr 2
          dma_buf_map_attachment := fun _ => KPtr.null } ⟨3, 0, 0, 0⟩).calls.filter
          Call.is_release
        = [Call.dma_buf_detach 1 2, Call.dma_buf_put 1] ∧
      (esc_mods_dmabuf_get_phys_addr (provider_of [⟨0x4000, 0x10⟩])
          ⟨3, 0x10, 0, 0⟩).calls.filter Call.is_release
        = [Call.dma_buf_unmap_attachment 2 [⟨0x4000, 0x10⟩], Call.dma_buf_detach 1 2,
           Call.dma_buf_put 1] :=
  ⟨(releases_mirror_acquisitions
      { dma_buf_get := fun _ => KPtr.ptr 1
        dma_buf_attach := fun _ => KPtr.ptr 2
        dma_buf_map_attachment := fun _ => KPtr.null } ⟨3, 0, 0, 0⟩).2.2.2.2.1 1 2 rfl rfl
      (fun _ h => nomatch h),
    (releases_mirror_acquisitions (provider_of [⟨0x4000, 0x10⟩]) ⟨3, 0x10, 0, 0⟩).2.2.2.2.2
      1 2 [⟨0x4000, 0x10⟩] rfl rfl rfl⟩

/-! ## The segment found -/

theorem le_contiguous_run (pa : Nat) (rest : List Scatterlist) (acc : Nat) :
    acc ≤ contiguous_run pa acc rest := by
  induction rest generalizing acc with
  | nil => simp [contiguous_run]
  | cons sg rest ih =>
    simp only [contiguous_run]
    split_ifs
    · exact ih _
    · exact le_trans (Nat.le_add_right _ _) (ih _)
    · exact le_rfl

/-- Once a segment is open and as long as the run fits 32 bits and ends below
`2 ^ 64`, the loop leaves in `segment_size` the length of the contiguous run. -/
theorem for_each_sg_merge (rest : List Scatterlist) (st : ScanState)
    (hrem : st.remaining_offset = 0) (hpos : 0 < st.segment_size)
    (hrun : contiguous_run st.physical_address st.segment_size rest < 2 ^ 32)
    (hphys : st.physical_address + contiguous_run st.physical_address st.segment_size rest
      < 2 ^ 64) :
    (for_each_sg st rest).segment_size
        = contiguous_run st.physical_address st.segment_size rest ∧
      (for_each_sg st rest).physical_address = st.physical_address := by
  induction rest generalizing st with
  | nil => simp [for_each_sg, contiguous_run]
  | cons sg rest ih =>
    by_cases hz : sg.length = 0
    · have hv : (sg_visit st sg).2 = Branch.not_reached ∧
          (sg_visit st sg).1.remaining_offset = 0 ∧
          (sg_visit st sg).1.segment_size = st.segment_size ∧
          (sg_visit st sg).1.physical_address = st.physical_address := by
        simp [sg_visit, hz, hrem]
      obtain ⟨hb, h1, h2, h3⟩ := hv
      simp only [contiguous_run, hz, if_true] at hrun hphys ⊢
      simp only [for_each_sg, hb, reduceCtorEq, if_false]
      have := ih (sg_visit st sg).1 h1 (by rw [h2]; exact hpos)
        (by rw [h2, h3]; exact hrun) (by rw [h2, h3]; exact hphys)
      rw [h2, h3] at this
      exact this
    · have hlen : ¬ sg.length ≤ 0 := by omega
      have hseg : st.segment_size ≠ 0 := by omega
      by_cases hc : sg.phys = st.physical_address + st.segment_size
      · simp only [contiguous_run, hz, hc, if_true, if_false] at hrun hphys ⊢
        have hmono := le_contiguous_run st.physical_address rest (st.segment_size + sg.length)
        have hm1 : (st.physical_address + st.segment_size) % 2 ^ 64
            = st.physical_address + st.segment_size := Nat.mod_eq_of_lt (by omega)
        have hm2 : (st.segment_size + sg.length) % 2 ^ 32 = st.segment_size + sg.length :=
          Nat.mod_eq_of_lt (by omega)
        have hv : (sg_visit st sg).2 = Branch.contiguous ∧
            (sg_visit st sg).1.remaining_offset = 0 ∧
            (sg_visit st sg).1.segment_size = st.segment_size + sg.length ∧
            (sg_visit st sg).1.physical_address = st.physical_address := by
          simp only [sg_visit, hrem, ge_iff_le, hlen, if_false, hseg, hm1, hc, if_true, hm2,
            and_self]
        obtain ⟨hb, h1, h2, h3⟩ := hv
        simp only [for_each_sg, hb, reduceCtorEq, if_false]
        have := ih (sg_visit st sg).1 h1 (by rw [h2]; omega)
          (by rw [h2, h3]; exact hrun) (by rw [h2, h3]; exact hphys)
        rw [h2, h3] at this
        exact this
      · simp only [contiguous_run, hz, hc, if_false] at hrun hphys ⊢
        have hm1 : (st.physical_address + st.segment_size) % 2 ^ 64
            = st.physical_address + st.segment_size := Nat.mod_eq_of_lt (by omega)
        have hv : (sg_visit st sg).2 = Branch.discontiguous ∧
            (sg_visit st sg).1.segment_size = st.segment_size ∧
            (sg_visit st sg).1.physical_address = st.physical_address := by
          simp only [sg_visit, hrem, ge_iff_le, hlen, if_false, hseg, hm1, hc, and_self]
        obtain ⟨hb, h2, h3⟩ := hv
        simp only [for_each_sg, hb, if_true]
        exact ⟨h2, h3⟩

/-- The entry that holds the offset opens the segment, and the entries behind it
extend it: as long as the run fits 32 bits and ends below `2 ^ 64`, the loop
reports the address of the offset and the length of the contiguous run there. -/
theorem scan_append_cons (pre post : List Scatterlist) (sg : Scatterlist) (offset : Nat)
    (hlo : total_length pre ≤ offset) (hhi : offset < total_length pre + sg.length)
    (hrun : contiguous_run (sg.phys + (offset - total_length pre))
      (sg.length - (offset - total_length pre)) post < 2 ^ 32)
    (hphys : sg.phys + (offset - total_length pre)
      + contiguous_run (sg.phys + (offset - total_length pre))
          (sg.length - (offset - total_length pre)) post < 2 ^ 64) :
    (scan (pre ++ sg :: post) offset).physical_address = sg.phys + (offset - total_length pre) ∧
      (scan (pre ++ sg :: post) offset).segment_size
        = contiguous_run (sg.phys + (offset - total_length pre))
            (sg.length - (offset - total_length pre)) post ∧
      0 < (scan (pre ++ sg :: post) offset).segment_size := by
  have hmono := le_contiguous_run (sg.phys + (offset - total_length pre))
    post (sg.length - (offset - total_length pre))
  have hskip := for_each_sg_skip pre (sg :: post) (scan_init offset) (scan_init_in_range _) hlo
  have hm1 : (sg.phys + (offset - total_length pre)) % 2 ^ 64
      = sg.phys + (offset - total_length pre) := Nat.mod_eq_of_lt (by omega)
  have hm2 : (sg.length - (offset - total_length pre)) % 2 ^ 32
      = sg.length - (offset - total_length pre) := Nat.mod_eq_of_lt (by omega)
  have hnot : ¬ sg.length ≤ offset - total_length pre := by omega
  have hv : (sg_visit (skipped (scan_init offset) pre) sg).2 = Branch.first_sg ∧
      (sg_visit (skipped (scan_init offset) pre) sg).1.remaining_offset = 0 ∧
      (sg_visit (skipped (scan_init offset) pre) sg).1.segment_size
        = sg.length - (offset - total_length pre) ∧
      (sg_visit (skipped (scan_init offset) pre) sg).1.physical_address
        = sg.phys + (offset - total_length pre) := by
    simp only [sg_visit, skipped, scan_init, ge_iff_le, hnot, if_false, if_true, hm1, hm2,
      and_self]
  obtain ⟨hb, h1, h2, h3⟩ := hv
  have hmerge := for_each_sg_merge post (sg_visit (skipped (scan_init offset) pre) sg).1 h1
    (by rw [h2]; omega) (by rw [h2, h3]; exact hrun) (by rw [h2, h3]; exact hphys)
  rw [h2, h3] at hmerge
  have hscan : scan (pre ++ sg :: post) offset
      = for_each_sg (sg_visit (skipped (scan_init offset) pre) sg).1 post := by
    rw [scan, hskip]
    simp only [for_each_sg, hb, reduceCtorEq, if_false]
  rw [hscan]
  refine ⟨hmerge.2, hmerge.1, ?_⟩
  rw [hmerge.1]
  omega

theorem running_sum_succ_of_drop (sgt : List Scatterlist) (k : Nat) (sg : Scatterlist)
    (rest : List Scatterlist) (h : sgt.drop k = sg :: rest) :
    running_sum sgt (k + 1) = running_sum sgt k + sg.length := by
  induction sgt generalizing k with
  | nil => simp at h
  | cons a l ih =>
    cases k with
    | zero =>
      simp only [List.drop_zero, List.cons.injEq] at h
      simp [running_sum, total_length, h.1]
    | succ k =>
      simp only [List.drop_succ_cons] at h
      have := ih k h
      simp only [running_sum, List.take_succ_cons, total_length_cons] at this ⊢
      omega

/-- C2, amended: for every request whose three stages succeed, when entry `k` is
the first at which the running sum of lengths exceeds the offset, and the
contiguous run beginning at the offset (the rest of entry `k` plus the following
entries up to the first non-empty one whose base differs from
`physical_address` plus the length gathered so far) is shorter than `2 ^ 32`
bytes and ends below `2 ^ 64`, the request returns 0 and stores that run length,
which is not 0, in `op->segment_size` and the address of the offset in
`op->physical_address`.  The two examples of the claim hold:
`[(B,10),(B+10,5),(B+20,8)]` at offset 0 returns 0 and stores `(B, 15)` for every
64-bit `B`, and `[(0x1000,0x100),(0x1100,0x100),(0x2000,0x100)]` at offset `0x50`
returns 0 and stores `(0x1050, 0x1B0)`. -/
theorem segment_size_is_contiguous_run :
    (∀ (prov : DmaBufProvider) (op : GetPhysAddrOp) (dmabuf attachment : Nat)
        (sgt : List Scatterlist) (k : Nat),
      prov.dma_buf_get op.buf_fd = KPtr.ptr dmabuf →
      prov.dma_buf_attach dmabuf = KPtr.ptr attachment →
      prov.dma_buf_map_attachment attachment = KPtr.ptr sgt →
      k < sgt.length →
      op.offset < running_sum sgt (k + 1) →
      (∀ j, j < k → running_sum sgt (j + 1) ≤ op.offset) →
      run_at sgt op.offset k < 2 ^ 32 →
      address_at sgt op.offset k + run_at sgt op.offset k < 2 ^ 64 →
      (esc_mods_dmabuf_get_phys_addr prov op).ret = 0 ∧
        (esc_mods_dmabuf_get_phys_addr prov op).op.segment_size = run_at sgt op.offset k ∧
        (esc_mods_dmabuf_get_phys_addr prov op).op.physical_address
          = address_at sgt op.offset k ∧
        0 < (esc_mods_dmabuf_get_phys_addr prov op).op.segment_size ∧
        (esc_mods_dmabuf_get_phys_addr prov op).op.buf_fd = op.buf_fd ∧
        (esc_mods_dmabuf_get_phys_addr prov op).op.offset = op.offset ∧
        (scan sgt op.offset).segment_size = run_at sgt op.offset k ∧
        (scan sgt op.offset).physical_address = address_at sgt op.offset k) ∧
    (∀ (B : Nat) (op : GetPhysAddrOp), B < 2 ^ 64 → op.offset = 0 →
      (esc_mods_dmabuf_get_phys_addr
          (provider_of [⟨B, 10⟩, ⟨(B + 10) % 2 ^ 64, 5⟩, ⟨(B + 20) % 2 ^ 64, 8⟩]) op).ret = 0 ∧
        (esc_mods_dmabuf_get_phys_addr
          (provider_of [⟨B, 10⟩, ⟨(B + 10) % 2 ^ 64, 5⟩, ⟨(B + 20) % 2 ^ 64, 8⟩])
          op).op.physical_address = B ∧
        (esc_mods_dmabuf_get_phys_addr
          (provider_of [⟨B, 10⟩, ⟨(B + 10) % 2 ^ 64, 5⟩, ⟨(B + 20) % 2 ^ 64, 8⟩])
          op).op.segment_size = 15) ∧
    ((esc_mods_dmabuf_get_phys_addr
          (provider_of [⟨0x1000, 0x100⟩, ⟨0x1100, 0x100⟩, ⟨0x2000, 0x100⟩])
          ⟨3, 0x50, 0, 0⟩).ret = 0 ∧
      (esc_mods_dmabuf_get_phys_addr
          (provider_of [⟨0x1000, 0x100⟩, ⟨0x1100, 0x100⟩, ⟨0x2000, 0x100⟩])
          ⟨3, 0x50, 0, 0⟩).op = ⟨3, 0x50, 0x1050, 0x1B0⟩) := by
  refine ⟨?_, ?_, by decide⟩
  · intro prov op dmabuf attachment sgt k hget hattach hmap hk hhi hfirst hrun hphys
    have hd : sgt.drop k = sgt[k] :: sgt.drop (k + 1) := List.drop_eq_getElem_cons hk
    have hsucc := running_sum_succ_of_drop sgt k _ _ hd
    have hlo : running_sum sgt k ≤ op.offset := by
      cases k with
      | zero => simp [running_sum, total_length]
      | succ j => exact hfirst j (Nat.lt_succ_self j)
    have hsplit : sgt = sgt.take k ++ sgt[k] :: sgt.drop (k + 1) := by
      rw [← hd, List.take_append_drop]
    simp only [run_at, address_at, hd] at hrun hphys ⊢
    simp only [running_sum] at hrun hphys hlo hhi hsucc ⊢
    have := scan_append_cons (sgt.take k) (sgt.drop (k + 1)) sgt[k] op.offset hlo (by omega)
      hrun hphys
    rw [← hsplit] at this
    obtain ⟨hpa, hseg, hpos⟩ := this
    have hne : (scan sgt op.offset).segment_size ≠ 0 := by omega
    simp only [esc_mods_dmabuf_get_phys_addr, hget, hattach, hmap, report, hne, if_false]
    exact ⟨trivial, hseg, hpa, hpos, trivial, trivial, hseg, hpa⟩
  · intro B op hB hoff
    have h1 : B % 18446744073709551616 = B := Nat.mod_eq_of_lt (by simpa using hB)
    have h3 : (B + 20) % 18446744073709551616 ≠ (B + 15) % 18446744073709551616 := by omega
    simp [esc_mods_dmabuf_get_phys_addr, provider_of, report, hoff, scan, scan_init,
      for_each_sg, sg_visit, h1, h3]

/-- C2 at the list and offset of the claim's second example: entry 0 holds
offset `0x50`, the run there is `0x1B0` bytes beginning at `0x1050`, and the
request returns 0 and stores both. -/
theorem segment_size_is_contiguous_run_witness :
    run_at [⟨0x1000, 0x100⟩, ⟨0x1100, 0x100⟩, ⟨0x2000, 0x100⟩] 0x50 0 = 0x1B0 ∧
      address_at [⟨0x1000, 0x100⟩, ⟨0x1100, 0x100⟩, ⟨0x2000, 0x100⟩] 0x50 0 = 0x1050 ∧
      (esc_mods_dmabuf_get_phys_addr
          (provider_of [⟨0x1000, 0x100⟩, ⟨0x1100, 0x100⟩, ⟨0x2000, 0x100⟩])
          ⟨3, 0x50, 0, 0⟩).ret = 0 ∧
      (esc_mods_dmabuf_get_phys_addr
          (provider_of [⟨0x1000, 0x100⟩, ⟨0x1100, 0x100⟩, ⟨0x2000, 0x100⟩])
          ⟨3, 0x50, 0, 0⟩).op.segment_size
        = run_at [⟨0x1000, 0x100⟩, ⟨0x1100, 0x100⟩, ⟨0x2000, 0x100⟩] 0x50 0 ∧
      (esc_mods_dmabuf_get_phys_addr
          (provider_of [⟨0x1000, 0x100⟩, ⟨0x1100, 0x100⟩, ⟨0x2000, 0x100⟩])
          ⟨3, 0x50, 0, 0⟩).op.physical_address
        = address_at [⟨0x1000, 0x100⟩, ⟨0x1100, 0x100⟩, ⟨0x2000, 0x100⟩] 0x50 0 :=
  have h := segment_size_is_contiguous_run.1
    (provider_of [⟨0x1000, 0x100⟩, ⟨0x1100, 0x100⟩, ⟨0x2000, 0x100⟩]) ⟨3, 0x50, 0, 0⟩ 1 2
    [⟨0x1000, 0x100⟩, ⟨0x1100, 0x100⟩, ⟨0x2000, 0x100⟩] 0 rfl rfl rfl (by decide) (by decide)
    (fun j hj => absurd hj (Nat.not_lt_zero j)) (by decide) (by decide)
  ⟨by decide, by decide, h.1, h.2.1, h.2.2.1⟩

/-- C2 as stated fails: two entries of `0xC0000000` bytes each that touch form a
run of `0x180000000` bytes at offset 0; the request returns 0 and stores
`0x80000000`, the run length modulo `2 ^ 32`, in `op->segment_size`. -/
theorem segment_size_counterexample :
    0 < total_length [⟨0x100000000, 0xC0000000⟩, ⟨0x1C0000000, 0xC0000000⟩] ∧
      run_at [⟨0x100000000, 0xC0000000⟩, ⟨0x1C0000000, 0xC0000000⟩] 0 0 = 0x180000000 ∧
      (esc_mods_dmabuf_get_phys_addr
        (provider_of [⟨0x100000000, 0xC0000000⟩, ⟨0x1C0000000, 0xC0000000⟩]) ⟨3, 0, 0, 0⟩).ret = 0 ∧
      (esc_mods_dmabuf_get_phys_addr
        (provider_of [⟨0x100000000, 0xC0000000⟩, ⟨0x1C0000000, 0xC0000000⟩])
        ⟨3, 0, 0, 0⟩).op.segment_size = 0x80000000 ∧
      (esc_mods_dmabuf_get_phys_addr
        (provider_of [⟨0x100000000, 0xC0000000⟩, ⟨0x1C0000000, 0xC0000000⟩])
        ⟨3, 0, 0, 0⟩).op.segment_size
        ≠ run_at [⟨0x100000000, 0xC0000000⟩, ⟨0x1C0000000, 0xC0000000⟩] 0 0 ∧
      (scan [⟨0x100000000, 0xC0000000⟩, ⟨0x1C0000000, 0xC0000000⟩] 0).segment_size = 0x80000000 ∧
      (scan [⟨0x100000000, 0xC0000000⟩, ⟨0x1C0000000, 0xC0000000⟩] 0).segment_size
        ≠ run_at [⟨0x100000000, 0xC0000000⟩, ⟨0x1C0000000, 0xC0000000⟩] 0 0 := by
  decide

/-! ## Runs of 4 GiB and more -/

/-- C1 at a failing input: two entries of 2 GiB each that touch, offset 0.  The
offset lies inside the buffer; entry 0 opens the segment at `0x100000000`, entry
1 extends it, `segment_size` wraps to 0, and the request returns `-EINVAL`
without writing `*op`. -/
theorem offset_inside_rejected_on_wrap :
    (∀ sg ∈ ([⟨0x100000000, 0x80000000⟩, ⟨0x180000000, 0x80000000⟩] : List Scatterlist),
        sg.length < 2 ^ 32 ∧ sg.phys + sg.length < 2 ^ 64) ∧
      (0 : Nat) < total_length [⟨0x100000000, 0x80000000⟩, ⟨0x180000000, 0x80000000⟩] ∧
      branches_taken (scan_init 0) [⟨0x100000000, 0x80000000⟩, ⟨0x180000000, 0x80000000⟩]
        = [Branch.first_sg, Branch.contiguous] ∧
      (scan [⟨0x100000000, 0x80000000⟩, ⟨0x180000000, 0x80000000⟩] 0).segment_size = 0 ∧
      (esc_mods_dmabuf_get_phys_addr
        (provider_of [⟨0x100000000, 0x80000000⟩, ⟨0x180000000, 0x80000000⟩]) ⟨3, 0, 0, 0⟩).ret
        = -EINVAL ∧
      (esc_mods_dmabuf_get_phys_addr
        (provider_of [⟨0x100000000, 0x80000000⟩, ⟨0x180000000, 0x80000000⟩]) ⟨3, 0, 0, 0⟩).op
        = ⟨3, 0, 0, 0⟩ := by
  decide

/-- C5 at a failing input: a buffer of `T = 0x180000000` bytes in two touching
entries.  The call at offset 0 returns 0 with `segment_size = 0x80000000`; the
next offset of the walk, `0x80000000`, is below `T`, and the call there returns
`-EINVAL`. -/
theorem walk_stops_short_on_wrap :
    (∀ sg ∈ ([⟨0x200000000, 0xC0000000⟩, ⟨0x2C0000000, 0xC0000000⟩] : List Scatterlist),
        sg.length < 2 ^ 32 ∧ sg.phys + sg.length < 2 ^ 64) ∧
      total_length [⟨0x200000000, 0xC0000000⟩, ⟨0x2C0000000, 0xC0000000⟩] = 0x180000000 ∧
      (esc_mods_dmabuf_get_phys_addr
        (provider_of [⟨0x200000000, 0xC0000000⟩, ⟨0x2C0000000, 0xC0000000⟩]) ⟨3, 0, 0, 0⟩).ret = 0 ∧
      (esc_mods_dmabuf_get_phys_addr
        (provider_of [⟨0x200000000, 0xC0000000⟩, ⟨0x2C0000000, 0xC0000000⟩])
        ⟨3, 0, 0, 0⟩).op.segment_size = 0x80000000 ∧
      (0 + 0x80000000 : Nat)
        < total_length [⟨0x200000000, 0xC0000000⟩, ⟨0x2C0000000, 0xC0000000⟩] ∧
      (esc_mods_dmabuf_get_phys_addr
        (provider_of [⟨0x200000000, 0xC0000000⟩, ⟨0x2C0000000, 0xC0000000⟩])
        ⟨3, 0 + 0x80000000, 0, 0⟩).ret = -EINVAL := by
  decide

/-! ## The size counted by the loop -/

theorem sg_visit_total_size (st : ScanState) (sg : Scatterlist) :
    (sg_visit st sg).1.total_size = (st.total_size + sg.length) % 2 ^ 64 := by
  unfold sg_visit
  simp only []
  split_ifs <;> rfl

/-- The loop leaves in `total_size` the lengths of the entries it visited, added
up modulo `2 ^ 64`. -/
theorem for_each_sg_total_size (l : List Scatterlist) (st : ScanState)
    (h : st.total_size < 2 ^ 64) :
    (for_each_sg st l).total_size
      = (st.total_size + total_length (l.take (branches_taken st l).length)) % 2 ^ 64 := by
  induction l generalizing st with
  | nil =>
    simp only [for_each_sg, branches_taken, List.take_nil, total_length_nil, Nat.add_zero]
    exact (Nat.mod_eq_of_lt h).symm
  | cons sg rest ih =>
    simp only [for_each_sg, branches_taken]
    split_ifs
    · simp only [List.length_singleton, List.take_succ_cons, List.take_zero, total_length_cons,
        total_length_nil, Nat.add_zero]
      exact sg_visit_total_size st sg
    · rw [ih _ (sg_visit_total_size_lt st sg), sg_visit_total_size]
      simp only [List.length_cons, List.take_succ_cons, total_length_cons]
      omega

theorem branches_taken_length_of_exhausted (l : List Scatterlist) (st : ScanState)
    (h : Branch.discontiguous ∉ branches_taken st l) :
    (branches_taken st l).length = l.length := by
  induction l generalizing st with
  | nil => rfl
  | cons sg rest ih =>
    simp only [branches_taken] at h ⊢
    split_ifs at h ⊢ with hb
    · simp at h
    · simp only [List.mem_cons, not_or] at h
      simp only [List.length_cons, ih _ h.2]

theorem total_length_le (l : List Scatterlist) (h : ∀ sg ∈ l, sg.length < 2 ^ 32) :
    total_length l ≤ l.length * (2 ^ 32 - 1) := by
  induction l with
  | nil => simp [total_length]
  | cons sg rest ih =>
    have h1 := h sg (List.mem_cons_self _ _)
    have h2 := ih (fun x hx => h x (List.mem_cons_of_mem _ hx))
    simp only [total_length_cons, List.length_cons]
    have : (rest.length + 1) * (2 ^ 32 - 1) = rest.length * (2 ^ 32 - 1) + (2 ^ 32 - 1) := by
      ring
    omega

theorem total_length_take_le (l : List Scatterlist) (n : Nat) :
    total_length (l.take n) ≤ total_length l := by
  conv_rhs => rw [← List.take_append_drop n l]
  rw [total_length_append]
  exact Nat.le_add_right _ _

theorem sg_visit_discontiguous (st : ScanState) (sg : Scatterlist)
    (h : (sg_visit st sg).2 = Branch.discontiguous) :
    (sg_visit st sg).1.segment_size ≠ 0 := by
  unfold sg_visit at h ⊢
  simp only [] at h ⊢
  split_ifs at h ⊢
  simp_all

/-- A loop that was left by the `break` has a segment open. -/
theorem for_each_sg_stopped_early (l : List Scatterlist) (st : ScanState)
    (h : Branch.discontiguous ∈ branches_taken st l) :
    (for_each_sg st l).segment_size ≠ 0 := by
  induction l generalizing st with
  | nil => simp [branches_taken] at h
  | cons sg rest ih =>
    by_cases hb : (sg_visit st sg).2 = Branch.discontiguous
    · simp only [for_each_sg, hb, if_true]
      exact sg_visit_discontiguous st sg hb
    · simp only [branches_taken, hb, if_false, List.mem_cons] at h
      simp only [for_each_sg, hb, if_false]
      rcases h with h | h
      · exact absurd h.symm hb
      · exact ih _ h

/-- C10, amended: for every scatter list of 32-bit lengths with a 32-bit entry
count and every offset, the loop leaves in `total_size` the sum of the lengths
of the entries it visited, which are the entries up to and including the one at
which it stopped; when no entry took the `discontiguous` arm, so that the
enumeration was exhausted, that is the sum of the lengths of all entries; and
it is that sum whenever the loop ends with no segment open, which is when the
size is printed in the error message. -/
theorem total_size_is_sum_of_visited (sgt : List Scatterlist) (offset : Nat)
    (hnents : sgt.length < 2 ^ 32) (hlen : ∀ sg ∈ sgt, sg.length < 2 ^ 32) :
    (scan sgt offset).total_size
        = total_length (sgt.take (branches_taken (scan_init offset) sgt).length) ∧
      (Branch.discontiguous ∉ branches_taken (scan_init offset) sgt →
        (scan sgt offset).total_size = total_length sgt) ∧
      ((scan sgt offset).segment_size = 0 →
        (scan sgt offset).total_size = total_length sgt) := by
  have hbound : total_length sgt < 2 ^ 64 := by
    have h1 := total_length_le sgt hlen
    have h2 : sgt.length * (2 ^ 32 - 1) ≤ (2 ^ 32 - 1) * (2 ^ 32 - 1) :=
      Nat.mul_le_mul_right _ (by omega)
    have h3 : (2 ^ 32 - 1) * (2 ^ 32 - 1) < 2 ^ 64 := by norm_num
    omega
  have hts := for_each_sg_total_size sgt (scan_init offset) (by simp [scan_init])
  have hle := total_length_take_le sgt (branches_taken (scan_init offset) sgt).length
  have hfirst : (scan sgt offset).total_size
      = total_length (sgt.take (branches_taken (scan_init offset) sgt).length) := by
    rw [scan, hts]
    have h0 : (scan_init offset).total_size = 0 := rfl
    rw [h0, Nat.zero_add]
    exact Nat.mod_eq_of_lt (by omega)
  have hall : Branch.discontiguous ∉ branches_taken (scan_init offset) sgt →
      (scan sgt offset).total_size = total_length sgt := by
    intro hex
    rw [hfirst, branches_taken_length_of_exhausted sgt _ hex, List.take_length]
  refine ⟨hfirst, hall, fun hz => hall (fun hin => ?_)⟩
  exact for_each_sg_stopped_early sgt (scan_init offset) hin hz

/-- C10 at a list where the loop stops early: `[(0,1),(5,1),(9,1)]` at offset 0
is left at entry 1, with `total_size = 2`, the size of the two entries visited. -/
theorem total_size_is_sum_of_visited_witness :
    branches_taken (scan_init 0) [⟨0, 1⟩, ⟨5, 1⟩, ⟨9, 1⟩]
        = [Branch.first_sg, Branch.discontiguous] ∧
      (scan [⟨0, 1⟩, ⟨5, 1⟩, ⟨9, 1⟩] 0).total_size
        = total_length (([⟨0, 1⟩, ⟨5, 1⟩, ⟨9, 1⟩] : List Scatterlist).take
            (branches_taken (scan_init 0) [⟨0, 1⟩, ⟨5, 1⟩, ⟨9, 1⟩]).length) :=
  ⟨by decide,
    (total_size_is_sum_of_visited [⟨0, 1⟩, ⟨5, 1⟩, ⟨9, 1⟩] 0 (by decide) (by decide)).1⟩

/-- C10 as stated fails: on `[(0,1),(5,1),(9,1)]` at offset 0 the loop stops at
the discontiguous entry 1 with `total_size = 2`, while the three lengths add up
to 3. -/
theorem total_size_counterexample :
    (scan [⟨0, 1⟩, ⟨5, 1⟩, ⟨9, 1⟩] 0).total_size = 2 ∧
      total_length [⟨0, 1⟩, ⟨5, 1⟩, ⟨9, 1⟩] = 3 ∧
      (scan [⟨0, 1⟩, ⟨5, 1⟩, ⟨9, 1⟩] 0).total_size ≠ total_length [⟨0, 1⟩, ⟨5, 1⟩, ⟨9, 1⟩] := by
  decide

/-! ## Gaps before and behind the segment -/

theorem for_each_sg_append (l₁ l₂ : List Scatterlist) (st : ScanState) :
    for_each_sg st (l₁ ++ l₂)
      = if Branch.discontiguous ∈ branches_taken st l₁ then for_each_sg st l₁
        else for_each_sg (for_each_sg st l₁) l₂ := by
  induction l₁ generalizing st with
  | nil => simp [for_each_sg, branches_taken]
  | cons sg rest ih =>
    rw [List.cons_append]
    simp only [for_each_sg, branches_taken]
    by_cases hb : (sg_visit st sg).2 = Branch.discontiguous
    · simp [hb]
    · have hb' : ¬ Branch.discontiguous = (sg_visit st sg).2 := fun h => hb h.symm
      simp only [hb, if_false, List.mem_cons, hb', false_or]
      exact ih _

theorem branches_taken_append (l₁ l₂ : List Scatterlist) (st : ScanState) :
    branches_taken st (l₁ ++ l₂)
      = if Branch.discontiguous ∈ branches_taken st l₁ then branches_taken st l₁
        else branches_taken st l₁ ++ branches_taken (for_each_sg st l₁) l₂ := by
  induction l₁ generalizing st with
  | nil => simp [for_each_sg, branches_taken]
  | cons sg rest ih =>
    rw [List.cons_append]
    simp only [for_each_sg, branches_taken]
    by_cases hb : (sg_visit st sg).2 = Branch.discontiguous
    · simp [hb]
    · have hb' : ¬ Branch.discontiguous = (sg_visit st sg).2 := fun h => hb h.symm
      simp only [hb, if_false, List.mem_cons, hb', false_or]
      rw [ih]
      split_ifs <;> simp

/-- While a segment is open nothing is left of the offset. -/
theorem sg_visit_open_offset (st : ScanState) (sg : Scatterlist)
    (h : st.segment_size ≠ 0 → st.remaining_offset = 0) :
    (sg_visit st sg).1.segment_size ≠ 0 → (sg_visit st sg).1.remaining_offset = 0 := by
  unfold sg_visit
  simp only []
  split_ifs with h1 h2 h3
  · intro hs
    simp only [] at hs ⊢
    rw [h hs]
    exact Nat.zero_sub _
  · intro _
    rfl
  · intro _
    exact h h2
  · intro _
    exact h h2

theorem for_each_sg_open_offset (l : List Scatterlist) (st : ScanState)
    (h : st.segment_size ≠ 0 → st.remaining_offset = 0) :
    (for_each_sg st l).segment_size ≠ 0 → (for_each_sg st l).remaining_offset = 0 := by
  induction l generalizing st with
  | nil => simpa [for_each_sg] using h
  | cons sg rest ih =>
    simp only [for_each_sg]
    split_ifs
    · exact sg_visit_open_offset st sg h
    · exact ih _ (sg_visit_open_offset st sg h)

/-- With a segment open, an entry that is not empty and does not begin where
the segment ends takes the `discontiguous` arm. -/
theorem sg_visit_gap (st : ScanState) (sg : Scatterlist) (hrem : st.remaining_offset = 0)
    (hopen : st.segment_size ≠ 0) (hne : sg.length ≠ 0)
    (hgap : sg.phys ≠ (st.physical_address + st.segment_size) % 2 ^ 64) :
    (sg_visit st sg).2 = Branch.discontiguous ∧
      (sg_visit st sg).1.physical_address = st.physical_address ∧
      (sg_visit st sg).1.segment_size = st.segment_size := by
  have hlen : ¬ sg.length ≤ 0 := by omega
  simp only [sg_visit, hrem, ge_iff_le, hlen, if_false, hopen, hgap, and_self]

theorem for_each_sg_behind_gap (pre post : List Scatterlist) (sg : Scatterlist) (offset : Nat)
    (hopen : (scan pre offset).segment_size ≠ 0) (hne : sg.length ≠ 0)
    (hgap : sg.phys
      ≠ ((scan pre offset).physical_address + (scan pre offset).segment_size) % 2 ^ 64) :
    scan (pre ++ sg :: post) offset = scan (pre ++ [sg]) offset ∧
      (scan (pre ++ [sg]) offset).physical_address = (scan pre offset).physical_address ∧
      (scan (pre ++ [sg]) offset).segment_size = (scan pre offset).segment_size := by
  have hrem : (scan pre offset).remaining_offset = 0 :=
    for_each_sg_open_offset pre (scan_init offset) (fun h => absurd rfl h) hopen
  obtain ⟨hb, hpa, hseg⟩ := sg_visit_gap (scan pre offset) sg hrem hopen hne hgap
  simp only [scan] at hb hpa hseg ⊢
  rw [for_each_sg_append, for_each_sg_append pre [sg]]
  split_ifs
  · exact ⟨rfl, rfl, rfl⟩
  · simp only [for_each_sg, hb, if_true]
    exact ⟨trivial, hpa, hseg⟩

theorem skipped_congr (st : ScanState) (pre pre' : List Scatterlist)
    (h : pre'.map Scatterlist.length = pre.map Scatterlist.length) :
    skipped st pre' = skipped st pre := by
  have h1 : total_length pre' = total_length pre := by simp only [total_length, h]
  have h2 : pre'.length = pre.length := by
    have := congrArg List.length h
    simpa using this
  simp only [skipped, h1, h2]

theorem esc_with_sgt_congr (prov : DmaBufProvider) (op : GetPhysAddrOp)
    (l₁ l₂ : List Scatterlist)
    (h : report (scan l₁ op.offset) op = report (scan l₂ op.offset) op) :
    (esc_mods_dmabuf_get_phys_addr (with_sgt prov l₁) op).ret
        = (esc_mods_dmabuf_get_phys_addr (with_sgt prov l₂) op).ret ∧
      (esc_mods_dmabuf_get_phys_addr (with_sgt prov l₁) op).op
        = (esc_mods_dmabuf_get_phys_addr (with_sgt prov l₂) op).op := by
  constructor
  · rcases h1 : prov.dma_buf_get op.buf_fd with _ | e | dmabuf <;>
      simp only [esc_mods_dmabuf_get_phys_addr, with_sgt, h1]
    rcases h2 : prov.dma_buf_attach dmabuf with _ | e | attachment <;> simp only [h]
  · rcases h1 : prov.dma_buf_get op.buf_fd with _ | e | dmabuf <;>
      simp only [esc_mods_dmabuf_get_phys_addr, with_sgt, h1]
    rcases h2 : prov.dma_buf_attach dmabuf with _ | e | attachment <;> simp only [h]

/-- Gaps before and behind the segment, with `segment_size != 0` for an open
segment.  (1) For every request, giving the entries that lie wholly before the
offset (their lengths add up to at most the offset) any other physical bases,
lengths kept, changes neither what the loop leaves behind nor the return value
nor `*op`.  (2) While `segment_size != 0`, an entry that is not empty and whose base differs from
`physical_address + segment_size` (as the code adds them, in `phys_addr_t`)
takes the `discontiguous` arm: the loop ends there, the segment reported is the
one open before it, and whatever entries follow it, replaced, removed or
appended, the loop leaves the same state and the request the same return value
and `*op`. -/
theorem gaps_before_and_behind :
    (∀ (prov : DmaBufProvider) (op : GetPhysAddrOp) (pre pre' rest : List Scatterlist),
      pre'.map Scatterlist.length = pre.map Scatterlist.length →
      total_length pre ≤ op.offset →
      scan (pre' ++ rest) op.offset = scan (pre ++ rest) op.offset ∧
        (esc_mods_dmabuf_get_phys_addr (with_sgt prov (pre' ++ rest)) op).ret
          = (esc_mods_dmabuf_get_phys_addr (with_sgt prov (pre ++ rest)) op).ret ∧
        (esc_mods_dmabuf_get_phys_addr (with_sgt prov (pre' ++ rest)) op).op
          = (esc_mods_dmabuf_get_phys_addr (with_sgt prov (pre ++ rest)) op).op) ∧
    (∀ (prov : DmaBufProvider) (op : GetPhysAddrOp) (pre post post' : List Scatterlist)
        (sg : Scatterlist),
      (scan pre op.offset).segment_size ≠ 0 →
      sg.length ≠ 0 →
      sg.phys ≠ ((scan pre op.offset).physical_address
        + (scan pre op.offset).segment_size) % 2 ^ 64 →
      (Branch.discontiguous ∉ branches_taken (scan_init op.offset) pre →
          branches_taken (scan_init op.offset) (pre ++ sg :: post)
            = branches_taken (scan_init op.offset) pre ++ [Branch.discontiguous]) ∧
        scan (pre ++ sg :: post') op.offset = scan (pre ++ sg :: post) op.offset ∧
        (scan (pre ++ sg :: post) op.offset).physical_address
          = (scan pre op.offset).physical_address ∧
        (scan (pre ++ sg :: post) op.offset).segment_size
          = (scan pre op.offset).segment_size ∧
        (esc_mods_dmabuf_get_phys_addr (with_sgt prov (pre ++ sg :: post')) op).ret
          = (esc_mods_dmabuf_get_phys_addr (with_sgt prov (pre ++ sg :: post)) op).ret ∧
        (esc_mods_dmabuf_get_phys_addr (with_sgt prov (pre ++ sg :: post')) op).op
          = (esc_mods_dmabuf_get_phys_addr (with_sgt prov (pre ++ sg :: post)) op).op) := by
  constructor
  · intro prov op pre pre' rest hlen hle
    have hle' : total_length pre' ≤ op.offset := by
      have : total_length pre' = total_length pre := by simp only [total_length, hlen]
      omega
    have hscan : scan (pre' ++ rest) op.offset = scan (pre ++ rest) op.offset := by
      simp only [scan]
      rw [for_each_sg_skip pre' rest _ (scan_init_in_range _) hle',
        for_each_sg_skip pre rest _ (scan_init_in_range _) hle, skipped_congr _ _ _ hlen]
    exact ⟨hscan, esc_with_sgt_congr prov op _ _ (by rw [hscan])⟩
  · intro prov op pre post post' sg hopen hne hgap
    obtain ⟨h1, hpa, hseg⟩ := for_each_sg_behind_gap pre post sg op.offset hopen hne hgap
    obtain ⟨h2, -, -⟩ := for_each_sg_behind_gap pre post' sg op.offset hopen hne hgap
    have hscan : scan (pre ++ sg :: post') op.offset = scan (pre ++ sg :: post) op.offset := by
      rw [h1, h2]
    refine ⟨?_, hscan, by rw [h1]; exact hpa, by rw [h1]; exact hseg,
      esc_with_sgt_congr prov op _ _ (by rw [hscan])⟩
    intro hno
    have hrem : (scan pre op.offset).remaining_offset = 0 :=
      for_each_sg_open_offset pre (scan_init op.offset) (fun h => absurd rfl h) hopen
    obtain ⟨hb, -, -⟩ := sg_visit_gap (scan pre op.offset) sg hrem hopen hne hgap
    simp only [scan] at hb
    rw [branches_taken_append, if_neg hno]
    simp only [branches_taken, hb, if_true]

/-- Gaps at two lists.  Offset `0x150` lies in the second entry: moving the first
entry from `0x1000` to `0x9000` leaves the answer `(0x2050, 0xB0)`.  At offset 0
the entry `(0x3000, 0x10)` does not continue the segment `(0x1000, 0x100)`:
dropping the entry behind it leaves the answer `(0x1000, 0x100)`. -/
theorem gaps_before_and_behind_witness :
    (scan ([⟨0x9000, 0x100⟩] ++ [⟨0x2000, 0x100⟩]) 0x150
        = scan ([⟨0x1000, 0x100⟩] ++ [⟨0x2000, 0x100⟩]) 0x150 ∧
      (scan ([⟨0x1000, 0x100⟩] ++ [⟨0x2000, 0x100⟩]) 0x150).physical_address = 0x2050 ∧
      (scan ([⟨0x1000, 0x100⟩] ++ [⟨0x2000, 0x100⟩]) 0x150).segment_size = 0xB0) ∧
    (scan ([⟨0x1000, 0x100⟩] ++ ⟨0x3000, 0x10⟩ :: []) 0
        = scan ([⟨0x1000, 0x100⟩] ++ ⟨0x3000, 0x10⟩ :: [⟨0x3010, 0x10⟩]) 0 ∧
      (scan ([⟨0x1000, 0x100⟩] ++ ⟨0x3000, 0x10⟩ :: [⟨0x3010, 0x10⟩]) 0).physical_address
        = 0x1000 ∧
      (scan ([⟨0x1000, 0x100⟩] ++ ⟨0x3000, 0x10⟩ :: [⟨0x3010, 0x10⟩]) 0).segment_size
        = 0x100) :=
  ⟨⟨(gaps_before_and_behind.1 (provider_of []) ⟨3, 0x150, 0, 0⟩ [⟨0x1000, 0x100⟩]
        [⟨0x9000, 0x100⟩] [⟨0x2000, 0x100⟩] (by decide) (by decide)).1,
      by decide, by decide⟩,
    ⟨(gaps_before_and_behind.2 (provider_of []) ⟨3, 0, 0, 0⟩ [⟨0x1000, 0x100⟩]
        [⟨0x3010, 0x10⟩] [] ⟨0x3000, 0x10⟩ (by decide) (by decide) (by decide)).2.1,
      by decide, by decide⟩⟩

/-! ## The fixed-width scan and the scan over unbounded numbers -/

theorem for_each_sg_unbounded_skip (pre rest : List Scatterlist) (st : UnboundedState)
    (hle : total_length pre ≤ st.remaining_offset) :
    for_each_sg_unbounded st (pre ++ rest)
      = for_each_sg_unbounded
          { st with remaining_offset := st.remaining_offset - total_length pre } rest := by
  induction pre generalizing st with
  | nil => simp [total_length]
  | cons sg pre ih =>
    rw [total_length_cons] at hle
    have hge : sg.length ≤ st.remaining_offset := by omega
    have hv : sg_visit_unbounded st sg
        = ({ st with remaining_offset := st.remaining_offset - sg.length }, true) := by
      simp [sg_visit_unbounded, hge]
    rw [List.cons_append]
    simp only [for_each_sg_unbounded, hv, Bool.true_eq_false, if_false]
    rw [ih _ (by simp only []; omega)]
    simp only [total_length_cons, Nat.sub_sub]

theorem for_each_sg_unbounded_merge (rest : List Scatterlist) (st : UnboundedState)
    (hrem : st.remaining_offset = 0) (hopen : st.opened = true) :
    for_each_sg_unbounded st rest
      = { st with segment_size := contiguous_run st.physical_address st.segment_size rest } := by
  induction rest generalizing st with
  | nil => simp [for_each_sg_unbounded, contiguous_run]
  | cons sg rest ih =>
    by_cases hz : sg.length = 0
    · have hv : sg_visit_unbounded st sg = (st, true) := by
        cases st
        simp_all [sg_visit_unbounded]
      simp only [for_each_sg_unbounded, hv, Bool.true_eq_false, if_false, contiguous_run, hz,
        if_true]
      exact ih st hrem hopen
    · have hlen : ¬ sg.length ≤ 0 := by omega
      by_cases hc : sg.phys = st.physical_address + st.segment_size
      · have hv : sg_visit_unbounded st sg
            = ({ st with segment_size := st.segment_size + sg.length }, true) := by
          simp [sg_visit_unbounded, hrem, hlen, hopen, hc]
        simp only [for_each_sg_unbounded, hv, Bool.true_eq_false, if_false, contiguous_run, hz,
          hc, if_true]
        exact ih { st with segment_size := st.segment_size + sg.length } hrem hopen
      · have hv : sg_visit_unbounded st sg = (st, false) := by
          simp [sg_visit_unbounded, hrem, hlen, hopen, hc]
        simp only [for_each_sg_unbounded, hv, if_true, contiguous_run, hz, hc, if_false]

/-- The unbounded scan of a list whose entries end at or before the offset
opens no segment. -/
theorem scan_unbounded_past_end (sgt : List Scatterlist) (offset : Nat)
    (hge : total_length sgt ≤ offset) :
    scan_unbounded sgt offset
      = { remaining_offset := offset - total_length sgt, opened := false,
          physical_address := 0, segment_size := 0 } := by
  have h := for_each_sg_unbounded_skip sgt []
    { remaining_offset := offset, opened := false, physical_address := 0, segment_size := 0 } hge
  simpa [scan_unbounded, for_each_sg_unbounded] using h

/-- The unbounded scan of a list in which entry `sg` holds the offset reports the
address of the offset and the contiguous run there. -/
theorem scan_unbounded_append_cons (pre post : List Scatterlist) (sg : Scatterlist)
    (offset : Nat) (hlo : total_length pre ≤ offset)
    (hhi : offset < total_length pre + sg.length) :
    scan_unbounded (pre ++ sg :: post) offset
      = { remaining_offset := 0, opened := true,
          physical_address := sg.phys + (offset - total_length pre),
          segment_size := contiguous_run (sg.phys + (offset - total_length pre))
            (sg.length - (offset - total_length pre)) post } := by
  have hnot : ¬ sg.length ≤ offset - total_length pre := by omega
  rw [scan_unbounded, for_each_sg_unbounded_skip pre (sg :: post) _ hlo]
  have hv : sg_visit_unbounded
      { remaining_offset := offset - total_length pre, opened := false,
        physical_address := 0, segment_size := 0 } sg
      = ({ remaining_offset := 0, opened := true,
           physical_address := sg.phys + (offset - total_length pre),
           segment_size := sg.length - (offset - total_length pre) }, true) := by
    simp [sg_visit_unbounded, hnot]
  simp only [for_each_sg_unbounded, hv, Bool.true_eq_false, if_false]
  rw [for_each_sg_unbounded_merge post _ rfl rfl]

/-- An offset inside the buffer lies in one of the entries. -/
theorem exists_entry_of_lt (sgt : List Scatterlist) (offset : Nat)
    (h : offset < total_length sgt) :
    ∃ pre sg post, sgt = pre ++ sg :: post ∧ total_length pre ≤ offset ∧
      offset < total_length pre + sg.length := by
  induction sgt generalizing offset with
  | nil => simp [total_length] at h
  | cons a l ih =>
    rw [total_length_cons] at h
    by_cases ha : offset < a.length
    · exact ⟨[], a, l, rfl, by simp [total_length], by simpa [total_length] using ha⟩
    · obtain ⟨pre, sg, post, h1, h2, h3⟩ := ih (offset - a.length) (by omega)
      refine ⟨a :: pre, sg, post, by rw [h1]; rfl, ?_, ?_⟩
      · rw [total_length_cons]; omega
      · rw [total_length_cons]; omega

/-- The fixed-width loop and the unbounded one leave the same segment whenever
the unbounded run is shorter than `2 ^ 32` and ends below `2 ^ 64`. -/
theorem scan_eq_scan_unbounded (sgt : List Scatterlist) (offset : Nat)
    (hrun : (scan_unbounded sgt offset).segment_size < 2 ^ 32)
    (hphys : (scan_unbounded sgt offset).physical_address
      + (scan_unbounded sgt offset).segment_size < 2 ^ 64) :
    (scan sgt offset).physical_address = (scan_unbounded sgt offset).physical_address ∧
      (scan sgt offset).segment_size = (scan_unbounded sgt offset).segment_size ∧
      ((scan sgt offset).segment_size = 0 ↔ (scan_unbounded sgt offset).opened = false) := by
  by_cases hlt : offset < total_length sgt
  · obtain ⟨pre, sg, post, rfl, hlo, hhi⟩ := exists_entry_of_lt sgt offset hlt
    have hu := scan_unbounded_append_cons pre post sg offset hlo hhi
    rw [hu] at hrun hphys ⊢
    simp only [] at hrun hphys ⊢
    obtain ⟨h1, h2, h3⟩ := scan_append_cons pre post sg offset hlo hhi hrun hphys
    refine ⟨h1, h2, ?_⟩
    constructor
    · intro hz
      omega
    · intro hf
      simp at hf
  · have hge : total_length sgt ≤ offset := by omega
    have hu := scan_unbounded_past_end sgt offset hge
    have hf := for_each_sg_skip sgt [] (scan_init offset) (scan_init_in_range _) hge
    simp only [List.append_nil, for_each_sg] at hf
    rw [hu, scan, hf]
    simp only [skipped, scan_init, and_self]

/-- C13: for every scatter list and offset for which the scan over unbounded
natural numbers with an explicit `opened` flag finds a run shorter than `2 ^ 32`
bytes whose physical base plus length stays below `2 ^ 64`, the scan as coded
(32-bit wrapping `segment_size` that doubles as the flag, 64-bit wrapping
address arithmetic) has the same outcome and the same `physical_address` and
`segment_size`: it leaves the same two values, it leaves a segment open exactly
when the unbounded scan opened one, and the request returns the same value and
writes the same `*op`. -/
theorem fixed_width_refines_unbounded (sgt : List Scatterlist) (op : GetPhysAddrOp)
    (hrun : (scan_unbounded sgt op.offset).segment_size < 2 ^ 32)
    (hphys : (scan_unbounded sgt op.offset).physical_address
      + (scan_unbounded sgt op.offset).segment_size < 2 ^ 64) :
    (scan sgt op.offset).physical_address = (scan_unbounded sgt op.offset).physical_address ∧
      (scan sgt op.offset).segment_size = (scan_unbounded sgt op.offset).segment_size ∧
      ((scan sgt op.offset).segment_size ≠ 0 ↔ (scan_unbounded sgt op.offset).opened = true) ∧
      report (scan sgt op.offset) op = report_unbounded (scan_unbounded sgt op.offset) op ∧
      (esc_mods_dmabuf_get_phys_addr (provider_of sgt) op).ret
        = (report_unbounded (scan_unbounded sgt op.offset) op).1 ∧
      (esc_mods_dmabuf_get_phys_addr (provider_of sgt) op).op
        = (report_unbounded (scan_unbounded sgt op.offset) op).2 := by
  obtain ⟨hpa, hseg, hflag⟩ := scan_eq_scan_unbounded sgt op.offset hrun hphys
  have hrep : report (scan sgt op.offset) op
      = report_unbounded (scan_unbounded sgt op.offset) op := by
    simp only [report, report_unbounded]
    by_cases hz : (scan sgt op.offset).segment_size = 0
    · rw [if_pos hz, if_pos (hflag.1 hz)]
    · rw [if_neg hz, if_neg (fun h => hz (hflag.2 h)), hpa, hseg]
  refine ⟨hpa, hseg, ?_, hrep, ?_, ?_⟩
  · constructor
    · intro hne
      cases ho : (scan_unbounded sgt op.offset).opened
      · exact absurd (hflag.2 ho) hne
      · rfl
    · intro ho hz
      rw [hflag.1 hz] at ho
      exact absurd ho (by decide)
  · simp only [esc_mods_dmabuf_get_phys_addr, provider_of, hrep]
  · simp only [esc_mods_dmabuf_get_phys_addr, provider_of, hrep]

/-- C13 at the list `[(0x1000,0x100),(0x1100,0x100),(0x2000,0x100)]` with offset
`0x50`: the unbounded scan finds the run `(0x1050, 0x1B0)`, and so does the scan
as coded. -/
theorem fixed_width_refines_unbounded_witness :
    (scan_unbounded [⟨0x1000, 0x100⟩, ⟨0x1100, 0x100⟩, ⟨0x2000, 0x100⟩] 0x50).physical_address
        = 0x1050 ∧
      (scan_unbounded [⟨0x1000, 0x100⟩, ⟨0x1100, 0x100⟩, ⟨0x2000, 0x100⟩] 0x50).segment_size
        = 0x1B0 ∧
      (scan [⟨0x1000, 0x100⟩, ⟨0x1100, 0x100⟩, ⟨0x2000, 0x100⟩] 0x50).physical_address
        = (scan_unbounded [⟨0x1000, 0x100⟩, ⟨0x1100, 0x100⟩, ⟨0x2000, 0x100⟩]
            0x50).physical_address ∧
      (scan [⟨0x1000, 0x100⟩, ⟨0x1100, 0x100⟩, ⟨0x2000, 0x100⟩] 0x50).segment_size
        = (scan_unbounded [⟨0x1000, 0x100⟩, ⟨0x1100, 0x100⟩, ⟨0x2000, 0x100⟩]
            0x50).segment_size :=
  have h := fixed_width_refines_unbounded
    [⟨0x1000, 0x100⟩, ⟨0x1100, 0x100⟩, ⟨0x2000, 0x100⟩] ⟨3, 0x50, 0, 0⟩ (by decide) (by decide)
  ⟨by decide, by decide, h.1, h.2.1⟩

/-! ## Shifting the offset along the run -/

theorem sg_visit_skip_facts (st : ScanState) (sg : Scatterlist)
    (h : sg.length ≤ st.remaining_offset) :
    (sg_visit st sg).2 = Branch.not_reached ∧
      (sg_visit st sg).1.remaining_offset = st.remaining_offset - sg.length ∧
      (sg_visit st sg).1.segment_size = st.segment_size ∧
      (sg_visit st sg).1.physical_address = st.physical_address ∧
      bytes_merged st sg = 0 := by
  simp [bytes_merged, sg_visit, h]

theorem sg_visit_first_facts (st : ScanState) (sg : Scatterlist)
    (h : st.remaining_offset < sg.length) (hz : st.segment_size = 0) :
    (sg_visit st sg).2 = Branch.first_sg ∧
      (sg_visit st sg).1.remaining_offset = 0 ∧
      (sg_visit st sg).1.segment_size = (sg.length - st.remaining_offset) % 2 ^ 32 ∧
      (sg_visit st sg).1.physical_address = (sg.phys + st.remaining_offset) % 2 ^ 64 ∧
      bytes_merged st sg = sg.length - st.remaining_offset := by
  have hnot : ¬ sg.length ≤ st.remaining_offset := by omega
  simp [bytes_merged, sg_visit, hnot, hz]

theorem sg_visit_contiguous_facts (st : ScanState) (sg : Scatterlist)
    (h : st.remaining_offset < sg.length) (hz : st.segment_size ≠ 0)
    (hc : sg.phys = (st.physical_address + st.segment_size) % 2 ^ 64) :
    (sg_visit st sg).2 = Branch.contiguous ∧
      (sg_visit st sg).1.remaining_offset = st.remaining_offset ∧
      (sg_visit st sg).1.segment_size = (st.segment_size + sg.length) % 2 ^ 32 ∧
      (sg_visit st sg).1.physical_address = st.physical_address ∧
      bytes_merged st sg = sg.length := by
  have hnot : ¬ sg.length ≤ st.remaining_offset := by omega
  simp only [bytes_merged, sg_visit, ge_iff_le, hnot, if_false, hz, ← hc, if_true, and_self]

/-- With a segment open and no wrap-around ahead, the loop leaves the bytes in
hand plus the merged run in `segment_size` and keeps `physical_address`. -/
theorem for_each_sg_merged_run (l : List Scatterlist) (st : ScanState)
    (hrem : st.remaining_offset = 0) (hpos : 0 < st.segment_size)
    (hwrap : st.segment_size + merged_run st l < 2 ^ 32) :
    (for_each_sg st l).segment_size = st.segment_size + merged_run st l ∧
      (for_each_sg st l).physical_address = st.physical_address := by
  induction l generalizing st with
  | nil => simp [for_each_sg, merged_run]
  | cons sg rest ih =>
    by_cases hz : sg.length = 0
    · obtain ⟨hb, h1, h2, h3, h4⟩ := sg_visit_skip_facts st sg (by omega)
      simp only [merged_run, hb, reduceCtorEq, if_false, h4, Nat.zero_add] at hwrap ⊢
      simp only [for_each_sg, hb, reduceCtorEq, if_false]
      have := ih (sg_visit st sg).1 (by rw [h1, hrem]; exact Nat.zero_sub _)
        (by rw [h2]; exact hpos) (by rw [h2]; exact hwrap)
      rw [h2, h3] at this
      exact this
    · by_cases hc : sg.phys = (st.physical_address + st.segment_size) % 2 ^ 64
      · obtain ⟨hb, h1, h2, h3, h4⟩ :=
          sg_visit_contiguous_facts st sg (by omega) (by omega) hc
        simp only [merged_run, hb, reduceCtorEq, if_false, h4] at hwrap ⊢
        simp only [for_each_sg, hb, reduceCtorEq, if_false]
        have hm : (st.segment_size + sg.length) % 2 ^ 32 = st.segment_size + sg.length :=
          Nat.mod_eq_of_lt (by omega)
        rw [hm] at h2
        have := ih (sg_visit st sg).1 (by rw [h1, hrem]) (by rw [h2]; omega)
          (by rw [h2]; omega)
        rw [h2, h3] at this
        exact ⟨by rw [this.1]; omega, this.2⟩
      · obtain ⟨hb, h3, h2⟩ := sg_visit_gap st sg hrem (by omega) hz hc
        simp only [merged_run, hb, if_true, Nat.add_zero]
        simp only [for_each_sg, hb, if_true]
        exact ⟨h2, h3⟩

/-- Two runs of the loop over the same entries, both with a segment open, the
second `i` bytes further into it: they take the same arms, and the second ends
with `i` bytes less. -/
theorem for_each_sg_shift_open (l : List Scatterlist) (c₁ c₂ : ScanState) (i : Nat)
    (h1r : c₁.remaining_offset = 0) (h2r : c₂.remaining_offset = 0)
    (hi : i < c₁.segment_size) (h2s : c₂.segment_size = c₁.segment_size - i)
    (h2p : c₂.physical_address = c₁.physical_address + i)
    (hwrap : c₁.segment_size + merged_run c₁ l < 2 ^ 32) :
    (for_each_sg c₂ l).segment_size = (for_each_sg c₁ l).segment_size - i ∧
      (for_each_sg c₂ l).physical_address = c₂.physical_address := by
  induction l generalizing c₁ c₂ with
  | nil => simpa [for_each_sg] using h2s
  | cons sg rest ih =>
    by_cases hz : sg.length = 0
    · obtain ⟨hb, a1, a2, a3, a4⟩ := sg_visit_skip_facts c₁ sg (by omega)
      obtain ⟨hb', b1, b2, b3, -⟩ := sg_visit_skip_facts c₂ sg (by omega)
      simp only [merged_run, hb, reduceCtorEq, if_false, a4, Nat.zero_add] at hwrap
      simp only [for_each_sg, hb, hb', reduceCtorEq, if_false]
      have := ih (sg_visit c₁ sg).1 (sg_visit c₂ sg).1
        (by rw [a1, h1r]; exact Nat.zero_sub _) (by rw [b1, h2r]; exact Nat.zero_sub _)
        (by rw [a2]; exact hi) (by rw [a2, b2]; exact h2s) (by rw [a3, b3]; exact h2p)
        (by rw [a2]; exact hwrap)
      rw [b3] at this
      exact this
    · have hsame : (c₂.physical_address + c₂.segment_size) % 2 ^ 64
          = (c₁.physical_address + c₁.segment_size) % 2 ^ 64 := by
        rw [h2p, h2s]
        congr 1
        omega
      by_cases hc : sg.phys = (c₁.physical_address + c₁.segment_size) % 2 ^ 64
      · obtain ⟨hb, a1, a2, a3, a4⟩ :=
          sg_visit_contiguous_facts c₁ sg (by omega) (by omega) hc
        obtain ⟨hb', b1, b2, b3, -⟩ :=
          sg_visit_contiguous_facts c₂ sg (by omega) (by omega) (by rw [hsame]; exact hc)
        simp only [merged_run, hb, reduceCtorEq, if_false, a4] at hwrap
        simp only [for_each_sg, hb, hb', reduceCtorEq, if_false]
        have hm : (c₁.segment_size + sg.length) % 2 ^ 32 = c₁.segment_size + sg.length :=
          Nat.mod_eq_of_lt (by omega)
        have hm' : (c₂.segment_size + sg.length) % 2 ^ 32 = c₂.segment_size + sg.length :=
          Nat.mod_eq_of_lt (by omega)
        rw [hm] at a2
        rw [hm'] at b2
        have := ih (sg_visit c₁ sg).1 (sg_visit c₂ sg).1 (by rw [a1, h1r]) (by rw [b1, h2r])
          (by rw [a2]; omega) (by rw [a2, b2]; omega) (by rw [a3, b3]; exact h2p)
          (by rw [a2]; omega)
        rw [b3] at this
        exact this
      · obtain ⟨hb, -, a2⟩ := sg_visit_gap c₁ sg h1r (by omega) hz hc
        obtain ⟨hb', b3, b2⟩ :=
          sg_visit_gap c₂ sg h2r (by omega) hz (by rw [hsame]; exact hc)
        simp only [for_each_sg, hb, hb', if_true]
        exact ⟨by rw [a2, b2]; exact h2s, b3⟩

/-- The first run has a segment open and the second has not yet reached the
byte it looks for, which lies `i` bytes into the run of the first. -/
theorem for_each_sg_shift_behind (l : List Scatterlist) (c₁ c₂ : ScanState) (i : Nat)
    (h1r : c₁.remaining_offset = 0) (h1s : 0 < c₁.segment_size)
    (h2s : c₂.segment_size = 0) (h2r : c₂.remaining_offset + c₁.segment_size = i)
    (hwrap : c₁.segment_size + merged_run c₁ l < 2 ^ 32)
    (hi : i < (for_each_sg c₁ l).segment_size)
    (hp : c₁.physical_address + i < 2 ^ 64) :
    (for_each_sg c₂ l).segment_size = (for_each_sg c₁ l).segment_size - i ∧
      (for_each_sg c₂ l).physical_address = c₁.physical_address + i := by
  induction l generalizing c₁ c₂ with
  | nil =>
    simp only [for_each_sg] at hi
    omega
  | cons sg rest ih =>
    by_cases hz : sg.length = 0
    · obtain ⟨hb, a1, a2, a3, a4⟩ := sg_visit_skip_facts c₁ sg (by omega)
      obtain ⟨hb', b1, b2, -, -⟩ := sg_visit_skip_facts c₂ sg (by omega)
      simp only [merged_run, hb, reduceCtorEq, if_false, a4, Nat.zero_add] at hwrap
      simp only [for_each_sg, hb, hb', reduceCtorEq, if_false] at hi ⊢
      have := ih (sg_visit c₁ sg).1 (sg_visit c₂ sg).1
        (by rw [a1, h1r]; exact Nat.zero_sub _) (by rw [a2]; exact h1s) (by rw [b2]; exact h2s)
        (by rw [a2, b1]; omega) (by rw [a2]; exact hwrap) hi (by rw [a3]; exact hp)
      rw [a3] at this
      exact this
    · by_cases hc : sg.phys = (c₁.physical_address + c₁.segment_size) % 2 ^ 64
      · obtain ⟨hb, a1, a2, a3, a4⟩ :=
          sg_visit_contiguous_facts c₁ sg (by omega) (by omega) hc
        simp only [merged_run, hb, reduceCtorEq, if_false, a4] at hwrap
        have hm : (c₁.segment_size + sg.length) % 2 ^ 32 = c₁.segment_size + sg.length :=
          Nat.mod_eq_of_lt (by omega)
        rw [hm] at a2
        by_cases hlt : c₂.remaining_offset < sg.length
        · obtain ⟨hb', b1, b2, b3, -⟩ := sg_visit_first_facts c₂ sg hlt h2s
          have hm' : (sg.length - c₂.remaining_offset) % 2 ^ 32
              = sg.length - c₂.remaining_offset := Nat.mod_eq_of_lt (by omega)
          have hpa : (sg.phys + c₂.remaining_offset) % 2 ^ 64 = c₁.physical_address + i := by
            rw [hc]
            omega
          rw [hm'] at b2
          rw [hpa] at b3
          simp only [for_each_sg, hb, hb', reduceCtorEq, if_false] at hi ⊢
          have := for_each_sg_shift_open rest (sg_visit c₁ sg).1 (sg_visit c₂ sg).1 i
            (by rw [a1, h1r]) b1 (by rw [a2]; omega) (by rw [a2, b2]; omega)
            (by rw [a3, b3]) (by rw [a2]; omega)
          rw [b3] at this
          exact this
        · obtain ⟨hb', b1, b2, -, -⟩ := sg_visit_skip_facts c₂ sg (by omega)
          simp only [for_each_sg, hb, hb', reduceCtorEq, if_false] at hi ⊢
          have := ih (sg_visit c₁ sg).1 (sg_visit c₂ sg).1 (by rw [a1, h1r])
            (by rw [a2]; omega) (by rw [b2]; exact h2s) (by rw [a2, b1]; omega)
            (by rw [a2]; omega) hi (by rw [a3]; exact hp)
          rw [a3] at this
          exact this
      · obtain ⟨hb, -, a2⟩ := sg_visit_gap c₁ sg h1r (by omega) hz hc
        simp only [for_each_sg, hb, if_true] at hi
        omega

/-- Two runs of the loop over the same entries, neither with a segment open,
the second looking for the byte `i` bytes behind the one the first looks for:
when the first merges without wrap-around a run that holds that byte, the
second reports the address `i` bytes further and `i` bytes less. -/
theorem for_each_sg_shift (l : List Scatterlist) (c₁ c₂ : ScanState) (i : Nat)
    (h1s : c₁.segment_size = 0) (h2s : c₂.segment_size = 0)
    (h2r : c₂.remaining_offset = c₁.remaining_offset + i)
    (hwrap : merged_run c₁ l < 2 ^ 32)
    (hi : i < (for_each_sg c₁ l).segment_size)
    (hp : (for_each_sg c₁ l).physical_address + i < 2 ^ 64) :
    (for_each_sg c₂ l).segment_size = (for_each_sg c₁ l).segment_size - i ∧
      (for_each_sg c₂ l).physical_address = (for_each_sg c₁ l).physical_address + i := by
  induction l generalizing c₁ c₂ with
  | nil =>
    simp only [for_each_sg] at hi
    omega
  | cons sg rest ih =>
    by_cases hge : sg.length ≤ c₁.remaining_offset
    · obtain ⟨hb, a1, a2, -, a4⟩ := sg_visit_skip_facts c₁ sg hge
      obtain ⟨hb', b1, b2, -, -⟩ := sg_visit_skip_facts c₂ sg (by omega)
      simp only [merged_run, hb, reduceCtorEq, if_false, a4, Nat.zero_add] at hwrap
      simp only [for_each_sg, hb, hb', reduceCtorEq, if_false] at hi hp ⊢
      exact ih (sg_visit c₁ sg).1 (sg_visit c₂ sg).1 (by rw [a2]; exact h1s)
        (by rw [b2]; exact h2s) (by rw [a1, b1]; omega) hwrap hi hp
    · obtain ⟨hb, a1, a2, a3, a4⟩ := sg_visit_first_facts c₁ sg (by omega) h1s
      simp only [merged_run, hb, reduceCtorEq, if_false, a4] at hwrap
      have hm : (sg.length - c₁.remaining_offset) % 2 ^ 32 = sg.length - c₁.remaining_offset :=
        Nat.mod_eq_of_lt (by omega)
      rw [hm] at a2
      obtain ⟨p1, p2⟩ := for_each_sg_merged_run rest (sg_visit c₁ sg).1 a1
        (by rw [a2]; omega) (by rw [a2]; omega)
      by_cases hlt : c₂.remaining_offset < sg.length
      · obtain ⟨hb', b1, b2, b3, -⟩ := sg_visit_first_facts c₂ sg hlt h2s
        have hm' : (sg.length - c₂.remaining_offset) % 2 ^ 32
            = sg.length - c₂.remaining_offset := Nat.mod_eq_of_lt (by omega)
        rw [hm'] at b2
        simp only [for_each_sg, hb, hb', reduceCtorEq, if_false] at hi hp ⊢
        rw [p2, a3] at hp
        have hpa : (sg.phys + c₂.remaining_offset) % 2 ^ 64
            = (sg.phys + c₁.remaining_offset) % 2 ^ 64 + i := by
          rw [h2r]
          omega
        rw [hpa, ← a3] at b3
        have := for_each_sg_shift_open rest (sg_visit c₁ sg).1 (sg_visit c₂ sg).1 i
          a1 b1 (by rw [a2]; omega) (by rw [a2, b2]; omega) b3 (by rw [a2]; omega)
        rw [b3, ← p2] at this
        exact this
      · obtain ⟨hb', b1, b2, -, -⟩ := sg_visit_skip_facts c₂ sg (by omega)
        simp only [for_each_sg, hb, hb', reduceCtorEq, if_false] at hi hp ⊢
        rw [p2] at hp
        have := for_each_sg_shift_behind rest (sg_visit c₁ sg).1 (sg_visit c₂ sg).1 i
          a1 (by rw [a2]; omega) (by rw [b2]; exact h2s) (by rw [a2, b1]; omega)
          (by rw [a2]; omega) hi hp
        rw [← p2] at this
        exact this

/-- From a state with no segment open and no wrap-around ahead, the loop leaves
the merged run in `segment_size`. -/
theorem for_each_sg_eq_merged_run (l : List Scatterlist) (st : ScanState)
    (hs : st.segment_size = 0) (hwrap : merged_run st l < 2 ^ 32) :
    (for_each_sg st l).segment_size = merged_run st l := by
  induction l generalizing st with
  | nil => simpa [for_each_sg, merged_run] using hs
  | cons sg rest ih =>
    by_cases hge : sg.length ≤ st.remaining_offset
    · obtain ⟨hb, -, a2, -, a4⟩ := sg_visit_skip_facts st sg hge
      simp only [merged_run, hb, reduceCtorEq, if_false, a4, Nat.zero_add] at hwrap ⊢
      simp only [for_each_sg, hb, reduceCtorEq, if_false]
      exact ih _ (by rw [a2]; exact hs) hwrap
    · obtain ⟨hb, a1, a2, -, a4⟩ := sg_visit_first_facts st sg (by omega) hs
      simp only [merged_run, hb, reduceCtorEq, if_false, a4] at hwrap ⊢
      have hm : (sg.length - st.remaining_offset) % 2 ^ 32 = sg.length - st.remaining_offset :=
        Nat.mod_eq_of_lt (by omega)
      rw [hm] at a2
      simp only [for_each_sg, hb, reduceCtorEq, if_false]
      rw [(for_each_sg_merged_run rest (sg_visit st sg).1 a1 (by rw [a2]; omega)
        (by rw [a2]; omega)).1, a2]

/-- C12: for every scatter list and request whose merged run (the bytes the
loop gathers into the segment, counted without wrap-around) is shorter than
`2 ^ 32` bytes, so that the reported `segment_size` `n` is that run, and whose
reported `physical_address` `p` has `p + n` within the 64 bits of a physical
address, and for every `i < n`: the request at `offset + i` returns 0 and
reports exactly `(p + i, n - i)`. -/
theorem shift_along_run (sgt : List Scatterlist) (op : GetPhysAddrOp) (i : Nat)
    (hrun : merged_run (scan_init op.offset) sgt < 2 ^ 32)
    (hphys : (scan sgt op.offset).physical_address + (scan sgt op.offset).segment_size
      ≤ 2 ^ 64)
    (hi : i < (scan sgt op.offset).segment_size) :
    (scan sgt op.offset).segment_size = merged_run (scan_init op.offset) sgt ∧
      (esc_mods_dmabuf_get_phys_addr (provider_of sgt) op).ret = 0 ∧
      (scan sgt (op.offset + i)).physical_address = (scan sgt op.offset).physical_address + i ∧
      (scan sgt (op.offset + i)).segment_size = (scan sgt op.offset).segment_size - i ∧
      (esc_mods_dmabuf_get_phys_addr (provider_of sgt)
          { op with offset := op.offset + i }).ret = 0 ∧
      (esc_mods_dmabuf_get_phys_addr (provider_of sgt)
          { op with offset := op.offset + i }).op.physical_address
        = (scan sgt op.offset).physical_address + i ∧
      (esc_mods_dmabuf_get_phys_addr (provider_of sgt)
          { op with offset := op.offset + i }).op.segment_size
        = (scan sgt op.offset).segment_size - i := by
  have hn := for_each_sg_eq_merged_run sgt (scan_init op.offset) rfl hrun
  obtain ⟨hseg, hpa⟩ := for_each_sg_shift sgt (scan_init op.offset)
    (scan_init (op.offset + i)) i rfl rfl rfl hrun hi (by simp only [scan] at hphys hi; omega)
  have hseg' : (scan sgt (op.offset + i)).segment_size
      = (scan sgt op.offset).segment_size - i := hseg
  have hpa' : (scan sgt (op.offset + i)).physical_address
      = (scan sgt op.offset).physical_address + i := hpa
  have hne : (scan sgt op.offset).segment_size ≠ 0 := by omega
  have hne' : (scan sgt (op.offset + i)).segment_size ≠ 0 := by omega
  refine ⟨hn, ?_, hpa', hseg', ?_, ?_, ?_⟩
  · simp only [esc_mods_dmabuf_get_phys_addr, provider_of, report, hne, if_false]
  · simp only [esc_mods_dmabuf_get_phys_addr, provider_of, report, hne', if_false]
  · simp only [esc_mods_dmabuf_get_phys_addr, provider_of, report, hne', if_false]
    exact hpa'
  · simp only [esc_mods_dmabuf_get_phys_addr, provider_of, report, hne', if_false]
    exact hseg'

/-- C12 at the list `[(0x1000,0x100),(0x1100,0x100),(0x2000,0x100)]`: offset
`0x50` reports `(0x1050, 0x1B0)`, and `0x100` bytes further, in the second
entry, offset `0x150` reports `(0x1150, 0xB0)`. -/
theorem shift_along_run_witness :
    (scan [⟨0x1000, 0x100⟩, ⟨0x1100, 0x100⟩, ⟨0x2000, 0x100⟩] 0x50).physical_address = 0x1050 ∧
      (scan [⟨0x1000, 0x100⟩, ⟨0x1100, 0x100⟩, ⟨0x2000, 0x100⟩] 0x50).segment_size = 0x1B0 ∧
      (scan [⟨0x1000, 0x100⟩, ⟨0x1100, 0x100⟩, ⟨0x2000, 0x100⟩]
          (0x50 + 0x100)).physical_address
        = (scan [⟨0x1000, 0x100⟩, ⟨0x1100, 0x100⟩, ⟨0x2000, 0x100⟩] 0x50).physical_address
          + 0x100 ∧
      (scan [⟨0x1000, 0x100⟩, ⟨0x1100, 0x100⟩, ⟨0x2000, 0x100⟩] (0x50 + 0x100)).segment_size
        = (scan [⟨0x1000, 0x100⟩, ⟨0x1100, 0x100⟩, ⟨0x2000, 0x100⟩] 0x50).segment_size
          - 0x100 :=
  have h := shift_along_run [⟨0x1000, 0x100⟩, ⟨0x1100, 0x100⟩, ⟨0x2000, 0x100⟩]
    ⟨3, 0x50, 0, 0⟩ 0x100 (by decide) (by decide) (by decide)
  ⟨by decide, by decide, h.2.2.1, h.2.2.2.1⟩

/-! ## An opened segment whose length wrapped to 0 -/

/-- C9 at a failing input: two entries of 2 GiB each that touch, offset 0.  All
three stages deliver an object and the loop opens a segment (entry 0 takes the
`first_sg` arm, and the scan over unbounded numbers has `opened` set), yet
`segment_size` wraps to 0 at entry 1 and the request returns `-EINVAL`, not 0. -/
theorem opened_segment_returns_einval :
    (provider_of [⟨0x100000000, 0x80000000⟩, ⟨0x180000000, 0x80000000⟩]).dma_buf_get 3
        = KPtr.ptr 1 ∧
      (provider_of [⟨0x100000000, 0x80000000⟩, ⟨0x180000000, 0x80000000⟩]).dma_buf_attach 1
        = KPtr.ptr 2 ∧
      (provider_of
          [⟨0x100000000, 0x80000000⟩, ⟨0x180000000, 0x80000000⟩]).dma_buf_map_attachment 2
        = KPtr.ptr [⟨0x100000000, 0x80000000⟩, ⟨0x180000000, 0x80000000⟩] ∧
      Branch.first_sg
        ∈ branches_taken (scan_init 0) [⟨0x100000000, 0x80000000⟩, ⟨0x180000000, 0x80000000⟩] ∧
      (scan_unbounded [⟨0x100000000, 0x80000000⟩, ⟨0x180000000, 0x80000000⟩] 0).opened = true ∧
      (esc_mods_dmabuf_get_phys_addr
        (provider_of [⟨0x100000000, 0x80000000⟩, ⟨0x180000000, 0x80000000⟩]) ⟨3, 0, 0, 0⟩).ret
        = -EINVAL ∧
      (esc_mods_dmabuf_get_phys_addr
        (provider_of [⟨0x100000000, 0x80000000⟩, ⟨0x180000000, 0x80000000⟩]) ⟨3, 0, 0, 0⟩).ret
        ≠ 0 := by
  refine ⟨rfl, rfl, rfl, ?_⟩
  decide

/-- C11 at a failing input: behind two touching entries of 2 GiB each comes the
entry `(0x300000000, 0x1000)`, offset 0.  Entry 0 opens the segment at
`0x100000000` and entry 1 extends it to `0x200000000`; the third entry is not
empty and begins elsewhere, but `segment_size` has wrapped to 0, so it takes the
`first_sg` arm instead of ending the loop.  The request then reports
`(0x300000000, 0x1000)`, and with the entry `(0x300001000, 0x1000)` appended
behind it reports `(0x300000000, 0x2000)`. -/
theorem gap_behind_wrapped_segment_reopens :
    branches_taken (scan_init 0) [⟨0x100000000, 0x80000000⟩, ⟨0x180000000, 0x80000000⟩]
        = [Branch.first_sg, Branch.contiguous] ∧
      (scan_unbounded [⟨0x100000000, 0x80000000⟩, ⟨0x180000000, 0x80000000⟩] 0)
        = ⟨0, true, 0x100000000, 0x100000000⟩ ∧
      (0x300000000 : Nat)
        ≠ ((scan [⟨0x100000000, 0x80000000⟩, ⟨0x180000000, 0x80000000⟩] 0).physical_address
          + (scan [⟨0x100000000, 0x80000000⟩, ⟨0x180000000, 0x80000000⟩] 0).segment_size)
          % 2 ^ 64 ∧
      (0x300000000 : Nat) ≠ 0x100000000 + 0x100000000 ∧
      branches_taken (scan_init 0)
          ([⟨0x100000000, 0x80000000⟩, ⟨0x180000000, 0x80000000⟩] ++ [⟨0x300000000, 0x1000⟩])
        = [Branch.first_sg, Branch.contiguous, Branch.first_sg] ∧
      (esc_mods_dmabuf_get_phys_addr
          (provider_of ([⟨0x100000000, 0x80000000⟩, ⟨0x180000000, 0x80000000⟩]
            ++ [⟨0x300000000, 0x1000⟩])) ⟨3, 0, 0, 0⟩).ret = 0 ∧
      (esc_mods_dmabuf_get_phys_addr
          (provider_of ([⟨0x100000000, 0x80000000⟩, ⟨0x180000000, 0x80000000⟩]
            ++ [⟨0x300000000, 0x1000⟩])) ⟨3, 0, 0, 0⟩).op
        = ⟨3, 0, 0x300000000, 0x1000⟩ ∧
      (esc_mods_dmabuf_get_phys_addr
          (provider_of ([⟨0x100000000, 0x80000000⟩, ⟨0x180000000, 0x80000000⟩]
            ++ [⟨0x300000000, 0x1000⟩, ⟨0x300001000, 0x1000⟩])) ⟨3, 0, 0, 0⟩).op
        = ⟨3, 0, 0x300000000, 0x2000⟩ := by
  decide

end ModsDmabuf
